import Mathlib

/-!
# Mapnik text renderer: glyph preparation, halo and fill compositing

A shallow embedding of `src/text/renderer.cpp` (with `include/mapnik/text/glyph_info.hpp`)
and proofs about it.

Conventions of the embedding

* C++ `double` values are exact rationals (`ℚ`); `int`/`unsigned` values are unbounded
  integers (`Int`/`Nat`).  Signed overflow and out-of-range `double → int` conversions are
  undefined behaviour in C++ and are outside the model.
* The halo radius is tested by comparisons (renderer.cpp 161), which a NaN fails; it is
  therefore a `double`: a rational or NaN.
* The destination surface (`pixmap_`, a template parameter of the renderers) is observed
  through the sequence of calls made to `composite_pixel` / `setPixel`, in program order.
* Reading `bitmap->buffer[i]` may fail: a read outside the buffer makes the enclosing
  function return `none`.
* Dereferencing a null `format` pointer is a fault that ends the run.
* FreeType (`FT_*`) is an external library; its entry points are fields of an
  environment record and every theorem holds for all environments.
-/

namespace mapnik

/-! ## Data model -/

/-- Blend operator selector `composite_mode_e` (an enumeration; only passed through). -/
abbrev composite_mode_e := Nat

/-- A C++ `double` that may be NaN: a finite value or `nan`. (An infinite radius behaves in
the radius test as a finite one outside the range, except that infinity times zero is NaN.) -/
inductive double where
  | finite (q : ℚ)
  | nan
deriving DecidableEq

/-- Literals denote finite values. -/
instance (n : Nat) : OfNat double n := ⟨double.finite (OfNat.ofNat n)⟩

/-- Comparison `<=` of doubles: false as soon as one side is NaN. -/
instance : LE double where
  le a b := match a, b with
    | double.finite x, double.finite y => x ≤ y
    | _, _ => False

/-- Comparison `<` of doubles: false as soon as one side is NaN. -/
instance : LT double where
  lt a b := match a, b with
    | double.finite x, double.finite y => x < y
    | _, _ => False

instance (a b : double) : Decidable (a ≤ b) := by
  cases a <;> cases b <;> first
    | exact inferInstanceAs (Decidable False)
    | exact inferInstanceAs (Decidable ((_ : ℚ) ≤ _))

instance (a b : double) : Decidable (a < b) := by
  cases a <;> cases b <;> first
    | exact inferInstanceAs (Decidable False)
    | exact inferInstanceAs (Decidable ((_ : ℚ) < _))

/-- Product of a double and a finite factor: NaN stays NaN. -/
instance : HMul double ℚ double where
  hMul a q := match a with
    | double.finite x => double.finite (x * q)
    | double.nan => double.nan

/-- The fields of `FT_Bitmap` read by the renderer. `buffer` is the coverage bytes. -/
structure FT_Bitmap where
  rows : Nat
  width : Nat
  buffer : List Nat
deriving DecidableEq

/-- One call `pixmap.composite_pixel(comp_op, x, y, rgba, cover, opacity)`; each field is the
value of the argument expression at the call site (the parameter types belong to the pixmap
class, a template parameter). -/
structure composite_pixel where
  comp_op : composite_mode_e
  x : Int
  y : Int
  rgba : Nat
  cover : ℚ
  opacity : ℚ
deriving DecidableEq

/-- One call `pixmap.setPixel(x, y, feature_id)`. -/
structure setPixel where
  x : Int
  y : Int
  feature_id : Int
deriving DecidableEq

/-- The buffer holds exactly `width * rows` samples (row stride = `width`). -/
def FT_Bitmap.sized (b : FT_Bitmap) : Prop := b.buffer.length = b.width * b.rows

instance (b : FT_Bitmap) : Decidable b.sized := by
  unfold FT_Bitmap.sized; infer_instance

/-- Sample at column `col`, row `row`: `buffer[row * width + col]` (0 outside the buffer). -/
def FT_Bitmap.sample (b : FT_Bitmap) (col row : Nat) : Nat :=
  b.buffer.getD (row * b.width + col) 0

/-- Cells `(column, row)` in the order the renderer's nested loops visit them:
columns in the outer loop, rows in the inner loop. -/
def FT_Bitmap.cells (b : FT_Bitmap) : List (Nat × Nat) :=
  (List.range b.width).flatMap fun p => (List.range b.rows).map fun q => (p, q)

/-- The visited cells whose sample is nonzero. -/
def FT_Bitmap.nonzero_cells (b : FT_Bitmap) : List (Nat × Nat) :=
  b.cells.filter fun c => b.sample c.1 c.2 ≠ 0

/-! ## Loops -/

/-- A counting loop whose body may fail (out-of-bounds read) and otherwise emits calls. -/
def for_each {ι W : Type} : List ι → (ι → Option (List W)) → Option (List W)
  | [], _ => some []
  | i :: is, body =>
    match body i with
    | none => none
    | some ws =>
      match for_each is body with
      | none => none
      | some rest => some (ws ++ rest)

/-- The values taken by `n` in `for (int n = lo; n <= hi; ++n)`. -/
def int_loop (lo hi : Int) : List Int :=
  (List.range (hi + 1 - lo).toNat).map fun (k : Nat) => lo + (k : Int)

/-- Conversion `double → int`: truncation toward zero. -/
def double_to_int (d : ℚ) : Int := if 0 ≤ d then ⌊d⌋ else ⌈d⌉

/-! ## `composite_bitmap` (renderer.cpp 105-123) -/

/-- Loop `for (i=x,p=0; i<x_max; ++i,++p) for (j=y,q=0; j<y_max; ++j,++q)` with
`x_max = x + width`, `y_max = y + rows`; `i = x + p`, `j = y + q`. -/
def composite_bitmap (bitmap : FT_Bitmap) (rgba : Nat) (x y : Int) (opacity : ℚ)
    (comp_op : composite_mode_e) : Option (List composite_pixel) :=
  for_each (List.range bitmap.width) fun p =>
    for_each (List.range bitmap.rows) fun q =>
      match bitmap.buffer[q * bitmap.width + p]? with
      | none => none
      | some gray =>
        if gray ≠ 0 then
          some [⟨comp_op, x + (p : Int), y + (q : Int), rgba, (gray : ℚ), opacity⟩]
        else some []

/-! ## `agg_text_renderer::render_halo` (renderer.cpp 267-317) -/

/-- The nine calls of the `halo_radius < 1.0` branch, in source order, for the sample
`gray` at cell `(x, y)`. -/
def halo_kernel3 (comp_op : composite_mode_e) (rgba : Nat) (x1 y1 : Int) (halo_radius opacity : ℚ)
    (x y : Nat) (gray : Nat) : List composite_pixel :=
  [ ⟨comp_op, x + x1 - 1, y + y1 - 1, rgba, gray * halo_radius * halo_radius, opacity⟩,
    ⟨comp_op, x + x1,     y + y1 - 1, rgba, gray * halo_radius, opacity⟩,
    ⟨comp_op, x + x1 + 1, y + y1 - 1, rgba, gray * halo_radius * halo_radius, opacity⟩,
    ⟨comp_op, x + x1 - 1, y + y1,     rgba, gray * halo_radius, opacity⟩,
    ⟨comp_op, x + x1,     y + y1,     rgba, gray, opacity⟩,
    ⟨comp_op, x + x1 + 1, y + y1,     rgba, gray * halo_radius, opacity⟩,
    ⟨comp_op, x + x1 - 1, y + y1 + 1, rgba, gray * halo_radius * halo_radius, opacity⟩,
    ⟨comp_op, x + x1,     y + y1 + 1, rgba, gray * halo_radius, opacity⟩,
    ⟨comp_op, x + x1 + 1, y + y1 + 1, rgba, gray * halo_radius * halo_radius, opacity⟩ ]

/-- The calls of the `else` branch for one sample:
`for (int n=-halo_radius; n<=halo_radius; ++n) for (int m=-halo_radius; m<=halo_radius; ++m)`.
The initialiser converts the double `-halo_radius` to `int`; the test `n <= halo_radius`
compares the `int` with the double, i.e. `n ≤ ⌊halo_radius⌋`. -/
def halo_box (comp_op : composite_mode_e) (rgba : Nat) (x1 y1 : Int) (halo_radius opacity : ℚ)
    (x y : Nat) (gray : Nat) : List composite_pixel :=
  (int_loop (double_to_int (-halo_radius)) ⌊halo_radius⌋).flatMap fun n =>
    (int_loop (double_to_int (-halo_radius)) ⌊halo_radius⌋).map fun m =>
      ⟨comp_op, x + x1 + m, y + y1 + n, rgba, gray, opacity⟩

/-- Fast-approximate halo scatter. -/
def render_halo (bitmap : FT_Bitmap) (rgba : Nat) (x1 y1 : Int) (halo_radius opacity : ℚ)
    (comp_op : composite_mode_e) : Option (List composite_pixel) :=
  if halo_radius < 1 then
    for_each (List.range bitmap.width) fun x =>
      for_each (List.range bitmap.rows) fun y =>
        match bitmap.buffer[y * bitmap.width + x]? with
        | none => none
        | some gray =>
          if gray ≠ 0 then some (halo_kernel3 comp_op rgba x1 y1 halo_radius opacity x y gray)
          else some []
  else
    for_each (List.range bitmap.width) fun x =>
      for_each (List.range bitmap.rows) fun y =>
        match bitmap.buffer[y * bitmap.width + x]? with
        | none => none
        | some gray =>
          if gray ≠ 0 then some (halo_box comp_op rgba x1 y1 halo_radius opacity x y gray)
          else some []

/-- The function `render_halo` on a NaN radius: `halo_radius < 1.0` is false, so the `else`
branch scans the bitmap; at a nonzero sample the loop test `n <= halo_radius` is false
whatever value the initialiser gave `n`, so no call is made. -/
def render_halo_nan (bitmap : FT_Bitmap) : Option (List composite_pixel) :=
  for_each (List.range bitmap.width) fun x =>
    for_each (List.range bitmap.rows) fun y =>
      match bitmap.buffer[y * bitmap.width + x]? with
      | none => none
      | some gray => if gray ≠ 0 then some [] else some []

/-- The function `render_halo` called with the double `halo_radius`. -/
def render_halo_at (bitmap : FT_Bitmap) (rgba : Nat) (x1 y1 : Int) (halo_radius : double)
    (opacity : ℚ) (comp_op : composite_mode_e) : Option (List composite_pixel) :=
  match halo_radius with
  | double.finite q => render_halo bitmap rgba x1 y1 q opacity comp_op
  | double.nan => render_halo_nan bitmap

/-! ## `grid_text_renderer::render_halo_id` (renderer.cpp 319-343) -/

/-- Feature-id stamp; `halo_radius` is an `int` parameter. -/
def render_halo_id (bitmap : FT_Bitmap) (feature_id : Int) (x1 y1 : Int) (halo_radius : Int) :
    Option (List setPixel) :=
  for_each (List.range bitmap.width) fun x =>
    for_each (List.range bitmap.rows) fun y =>
      match bitmap.buffer[y * bitmap.width + x]? with
      | none => none
      | some gray =>
        if gray ≠ 0 then
          some ((int_loop (-halo_radius) halo_radius).flatMap fun n =>
            (int_loop (-halo_radius) halo_radius).map fun m =>
              ⟨x + x1 + m, y + y1 + n, feature_id⟩)
        else some []

/-! ## Glyph placements and prepared glyphs -/

/-- Style record `char_properties` (the fields the renderer reads; colours as their
`rgba()` value). -/
structure char_properties where
  text_size : ℚ
  fill : Nat
  halo_fill : Nat
  halo_radius : double
  text_opacity : ℚ
deriving DecidableEq

structure pixel_position where
  x : ℚ
  y : ℚ
deriving DecidableEq

/-- Rotation as a sine/cosine pair. -/
structure rotation where
  sin : ℚ
  cos : ℚ
deriving DecidableEq

/-- Component-wise `operator+` of `pixel_position`. -/
def pixel_position.add (a b : pixel_position) : pixel_position := ⟨a.x + b.x, a.y + b.y⟩

/-- Modelled from the spec: `pixel_position::rotate` (pixel_position.hpp is not among the
sources), the offset rotated by the placement's cosine/sine pair. -/
def pixel_position.rotate (p : pixel_position) (rot : rotation) : pixel_position :=
  ⟨p.x * rot.cos - p.y * rot.sin, p.x * rot.sin + p.y * rot.cos⟩

/-- The record `glyph_info` (glyph_info.hpp 41-60). `F` is the type of face handles;
`format` is a shared pointer that may be null. -/
structure glyph_info (F : Type) where
  glyph_index : Nat
  face : F
  char_index : Nat
  width : ℚ
  ymin : ℚ
  ymax : ℚ
  line_height : ℚ
  offset : pixel_position
  format : Option char_properties

/-- Member `height()` of `glyph_info`. -/
def glyph_info.height {F : Type} (g : glyph_info F) : ℚ := g.ymax - g.ymin

/-- One element of `glyph_positions`: glyph, position, rotation. -/
structure glyph_position (F : Type) where
  glyph : glyph_info F
  pos : pixel_position
  rot : rotation

/-- The placement list with its base point. -/
structure glyph_positions (F : Type) where
  placements : List (glyph_position F)
  base_point : pixel_position

structure FT_Vector where
  x : Int
  y : Int
deriving DecidableEq

structure FT_Matrix where
  xx : Int
  xy : Int
  yx : Int
  yy : Int
deriving DecidableEq

/-- The fields read through the cast `(FT_BitmapGlyph)g`. -/
structure FT_BitmapGlyph where
  left : Int
  top : Int
  bitmap : FT_Bitmap
deriving DecidableEq

/-- Prepared glyph `glyph_t` (renderer.cpp 45-55): an owned image and the format pointer of
the placement it came from. -/
structure glyph_t (G : Type) where
  image : G
  properties : Option char_properties
deriving DecidableEq

inductive halo_rasterizer_e where
  | HALO_RASTERIZER_FULL
  | HALO_RASTERIZER_FAST
deriving DecidableEq

/-- The FreeType entry points used by the renderer. `F`: faces, `S`: glyph slots,
`G`: `FT_Glyph` values. A result `none` is a nonzero `FT_Error`. -/
structure FreeType (F S G : Type) where
  /-- Models `set_character_sizes`, `FT_Set_Transform` and `FT_Load_Glyph(face, index,
  FT_LOAD_NO_HINTING)` on one face: the slot loaded for that size, transform and pen. -/
  Load_Glyph : F → ℚ → FT_Matrix → FT_Vector → Nat → Option S
  /-- Models `FT_Get_Glyph(face->glyph, &image)`. -/
  Get_Glyph : S → Option G
  /-- Models `FT_Glyph_Copy(source, &target)`. -/
  Glyph_Copy : G → Option G
  /-- Models `FT_Glyph_Transform(glyph, 0, &delta)`. -/
  Glyph_Transform : G → FT_Vector → G
  /-- Models `FT_Glyph_Stroke(&glyph, stroker, 1)` for a stroker initialised with the radius. -/
  Glyph_Stroke : double → G → G
  /-- Models `FT_Glyph_To_Bitmap(&glyph, FT_RENDER_MODE_NORMAL, 0, 1)`: the replacement glyph. -/
  Glyph_To_Bitmap : G → Option G
  /-- The cast `(FT_BitmapGlyph)glyph`. -/
  bitmap : G → FT_BitmapGlyph

/-- The members of `text_renderer` fixed at construction, and `pixmap_.height()`. -/
structure text_renderer where
  rasterizer_ : halo_rasterizer_e
  comp_op_ : composite_mode_e
  scale_factor_ : ℚ
  height : Nat
deriving DecidableEq

/-! ## `text_renderer::prepare_glyphs` (renderer.cpp 66-103) -/

/-- Result of `prepare_glyphs`: the rebuilt `glyphs_`, the sizes passed to
`set_character_sizes` (with the face) in call order, and whether a null `format` pointer was
dereferenced (the run stops there). -/
structure prepared (F G : Type) where
  glyphs_ : List (glyph_t G)
  face_sizes : List (F × ℚ)
  fault : Bool

/-- Effect of `glyphs_->clear()`. -/
def clear {α : Type} (_ : List α) : List α := []

/-- Matrix built from the rotation (renderer.cpp 81-84). -/
def rotation_matrix (rot : rotation) : FT_Matrix :=
  ⟨double_to_int (rot.cos * 65536), double_to_int (-rot.sin * 65536),
   double_to_int (rot.sin * 65536), double_to_int (rot.cos * 65536)⟩

/-- Pen origin in 26.6 fixed point (renderer.cpp 86-88). -/
def pen_of {F : Type} (itr : glyph_position F) : FT_Vector :=
  let pos := itr.pos.add (itr.glyph.offset.rotate itr.rot)
  ⟨double_to_int (pos.x * 64), double_to_int (pos.y * 64)⟩

/-- Record one `set_character_sizes` call in front of the rest of the run. -/
def prepared.logged {F G : Type} (r : prepared F G) (face : F) (size : ℚ) : prepared F G :=
  { r with face_sizes := (face, size) :: r.face_sizes }

/-- The loop of `prepare_glyphs` over the remaining placements; `glyphs_` is the vector
built so far. -/
def prepare_loop {F S G : Type} (ft : FreeType F S G) (scale_factor_ : ℚ) :
    List (glyph_position F) → List (glyph_t G) → prepared F G
  | [], glyphs_ => ⟨glyphs_, [], false⟩
  | itr :: rest, glyphs_ =>
    match itr.glyph.format with
    | none => ⟨glyphs_, [], true⟩
    | some format =>
      let size := format.text_size * scale_factor_
      match ft.Load_Glyph itr.glyph.face size (rotation_matrix itr.rot) (pen_of itr)
          itr.glyph.glyph_index with
      | none => (prepare_loop ft scale_factor_ rest glyphs_).logged itr.glyph.face size
      | some slot =>
        match ft.Get_Glyph slot with
        | none => (prepare_loop ft scale_factor_ rest glyphs_).logged itr.glyph.face size
        | some image =>
          (prepare_loop ft scale_factor_ rest
            (glyphs_ ++ [⟨image, itr.glyph.format⟩])).logged itr.glyph.face size

/-- The function `prepare_glyphs`: clear `glyphs_`, then run the loop. -/
def prepare_glyphs {F S G : Type} (ft : FreeType F S G) (scale_factor_ : ℚ)
    (glyphs_ : List (glyph_t G)) (pos : glyph_positions F) : prepared F G :=
  prepare_loop ft scale_factor_ pos.placements (clear glyphs_)

/-! ## Loops over `glyphs_` with `break` -/

/-- The calls observed during a render pass. -/
inductive call (G : Type) where
  | stroker_init (radius : double)
  | To_Bitmap (glyph : G)
  | composite_bitmap (bitmap : FT_Bitmap) (rgba : Nat) (x y : Int) (opacity : ℚ)
      (comp_op : composite_mode_e)
  | render_halo (bitmap : FT_Bitmap) (rgba : Nat) (x1 y1 : Int) (halo_radius : double)
      (opacity : ℚ) (comp_op : composite_mode_e)
  | pixel (w : composite_pixel)
  | render_halo_id (bitmap : FT_Bitmap) (feature_id : Int) (x1 y1 : Int) (halo_radius : Int)
  | set (w : setPixel)
deriving DecidableEq

/-- How a loop body ends: next iteration, `break`, or a fault (null `format` dereferenced,
or a read outside a bitmap buffer). -/
inductive ctl where
  | next
  | brk
  | fault
deriving DecidableEq

/-- Outcome of one loop body: the element as stored afterwards, the locals, the calls made. -/
structure step (G L : Type) where
  glyph : glyph_t G
  locals : L
  calls : List (call G)
  ctl : ctl

/-- Outcome of a pass: the vector afterwards, the locals, the calls tagged with the index of
the glyph being processed. -/
structure pass (G L : Type) where
  glyphs : List (glyph_t G)
  locals : L
  calls : List (Nat × call G)
  fault : Bool

/-- The loop `for (itr = begin; itr != end; ++itr) body(*itr)`; `i` is the index of the
first remaining element. -/
def iterate {G L : Type} (body : glyph_t G → L → step G L) :
    Nat → List (glyph_t G) → L → pass G L
  | _, [], l => ⟨[], l, [], false⟩
  | i, g :: rest, l =>
    let s := body g l
    match s.ctl with
    | ctl.next =>
      let r := iterate body (i + 1) rest s.locals
      ⟨s.glyph :: r.glyphs, r.locals, s.calls.map (Prod.mk i) ++ r.calls, r.fault⟩
    | ctl.brk => ⟨s.glyph :: rest, s.locals, s.calls.map (Prod.mk i), false⟩
    | ctl.fault => ⟨s.glyph :: rest, s.locals, s.calls.map (Prod.mk i), true⟩

/-! ## `agg_text_renderer::render` (renderer.cpp 136-227) -/

/-- The locals of `render` that live across iterations, and the radius of `stroker_`. -/
structure render_locals where
  halo_radius : double
  format : Option char_properties
  stroker_ : double
deriving DecidableEq

/-- The vector `start` (renderer.cpp 146-147). -/
def start_of (height : Nat) (base_point : pixel_position) : FT_Vector :=
  ⟨double_to_int (base_point.x * 64), double_to_int (((height : ℚ) - base_point.y) * 64)⟩

/-- Lines 164-201 of the halo loop body: copy, translate the copy, then stroke and composite,
or scatter with `render_halo`. `pre` are the calls already made in this iteration. -/
def halo_draw {F S G : Type} (ft : FreeType F S G) (r : text_renderer) (start : FT_Vector)
    (g : glyph_t G) (l : render_locals) (pre : List (call G)) : step G render_locals :=
  match ft.Glyph_Copy g.image with
  | none => ⟨g, l, pre, ctl.next⟩
  | some c =>
    let c := ft.Glyph_Transform c start
    if r.rasterizer_ = halo_rasterizer_e.HALO_RASTERIZER_FULL then
      let c := ft.Glyph_Stroke l.stroker_ c
      match ft.Glyph_To_Bitmap c with
      | none => ⟨g, l, pre ++ [call.To_Bitmap c], ctl.next⟩
      | some b =>
        let bit := ft.bitmap b
        match l.format with
        | none => ⟨g, l, pre ++ [call.To_Bitmap c], ctl.fault⟩
        | some format =>
          let x := bit.left
          let y := (r.height : Int) - bit.top
          let cb := call.composite_bitmap bit.bitmap format.halo_fill x y format.text_opacity
            r.comp_op_
          match composite_bitmap bit.bitmap format.halo_fill x y format.text_opacity
              r.comp_op_ with
          | none => ⟨g, l, pre ++ [call.To_Bitmap c, cb], ctl.fault⟩
          | some ws => ⟨g, l, pre ++ [call.To_Bitmap c, cb] ++ ws.map call.pixel, ctl.next⟩
    else
      match ft.Glyph_To_Bitmap c with
      | none => ⟨g, l, pre ++ [call.To_Bitmap c], ctl.next⟩
      | some b =>
        let bit := ft.bitmap b
        match l.format with
        | none => ⟨g, l, pre ++ [call.To_Bitmap c], ctl.fault⟩
        | some format =>
          let x := bit.left
          let y := (r.height : Int) - bit.top
          let rh := call.render_halo bit.bitmap format.halo_fill x y l.halo_radius
            format.text_opacity r.comp_op_
          match render_halo_at bit.bitmap format.halo_fill x y l.halo_radius
              format.text_opacity r.comp_op_ with
          | none => ⟨g, l, pre ++ [call.To_Bitmap c, rh], ctl.fault⟩
          | some ws => ⟨g, l, pre ++ [call.To_Bitmap c, rh] ++ ws.map call.pixel, ctl.next⟩

/-- Body of the halo loop (renderer.cpp 153-203). -/
def halo_body {F S G : Type} (ft : FreeType F S G) (r : text_renderer) (start : FT_Vector)
    (g : glyph_t G) (l : render_locals) : step G render_locals :=
  match g.properties with
  | some p =>
    let halo_radius := p.halo_radius * r.scale_factor_
    if halo_radius ≤ 0 ∨ halo_radius > 1024 then
      ⟨g, { l with format := some p, halo_radius := halo_radius }, [], ctl.brk⟩
    else
      halo_draw ft r start g ⟨halo_radius, some p, halo_radius⟩ [call.stroker_init halo_radius]
  | none => halo_draw ft r start g l []

/-- Body of the fill loop (renderer.cpp 206-226): the stored image is translated in place and
replaced by its bitmap when rasterization succeeds. -/
def fill_body {F S G : Type} (ft : FreeType F S G) (r : text_renderer) (start : FT_Vector)
    (g : glyph_t G) (l : render_locals) : step G render_locals :=
  let l := match g.properties with
    | some p => { l with format := some p }
    | none => l
  let image := ft.Glyph_Transform g.image start
  match ft.Glyph_To_Bitmap image with
  | none => ⟨{ g with image := image }, l, [call.To_Bitmap image], ctl.next⟩
  | some b =>
    let bit := ft.bitmap b
    match l.format with
    | none => ⟨{ g with image := b }, l, [call.To_Bitmap image], ctl.fault⟩
    | some format =>
      let x := bit.left
      let y := (r.height : Int) - bit.top
      let cb := call.composite_bitmap bit.bitmap format.fill x y format.text_opacity r.comp_op_
      match composite_bitmap bit.bitmap format.fill x y format.text_opacity r.comp_op_ with
      | none => ⟨{ g with image := b }, l, [call.To_Bitmap image, cb], ctl.fault⟩
      | some ws =>
        ⟨{ g with image := b }, l, [call.To_Bitmap image, cb] ++ ws.map call.pixel, ctl.next⟩

/-- The halo pass over `glyphs_`; `stroker_` is the radius the shared stroker holds on entry. -/
def halo_pass {F S G : Type} (ft : FreeType F S G) (r : text_renderer) (start : FT_Vector)
    (stroker_ : double) (glyphs_ : List (glyph_t G)) : pass G render_locals :=
  iterate (halo_body ft r start) 0 glyphs_ ⟨0, none, stroker_⟩

/-- Outcome of `render`: the vector afterwards and the calls of each pass. -/
structure rendered (G : Type) where
  glyphs_ : List (glyph_t G)
  halo : List (Nat × call G)
  fill : List (Nat × call G)
  fault : Bool

/-- The two loops of `render` over an already prepared vector. -/
def render_passes {F S G : Type} (ft : FreeType F S G) (r : text_renderer) (start : FT_Vector)
    (stroker_ : double) (glyphs_ : List (glyph_t G)) : rendered G :=
  let h := halo_pass ft r start stroker_ glyphs_
  if h.fault then ⟨h.glyphs, h.calls, [], true⟩
  else
    let f := iterate (fill_body ft r start) 0 h.glyphs h.locals
    ⟨f.glyphs, h.calls, f.calls, f.fault⟩

/-- The function `agg_text_renderer<T>::render`. -/
def render {F S G : Type} (ft : FreeType F S G) (r : text_renderer) (stroker_ : double)
    (glyphs_ : List (glyph_t G)) (pos : glyph_positions F) : rendered G :=
  let p := prepare_glyphs ft r.scale_factor_ (clear glyphs_) pos
  if p.fault then ⟨p.glyphs_, [], [], true⟩
  else render_passes ft r (start_of r.height pos.base_point) stroker_ p.glyphs_

/-! ## `grid_text_renderer::render` (renderer.cpp 230-264) -/

/-- Body of the grid loop: the local `halo_radius` is the only state; the image is translated
and rasterized in place, and `render_halo_id` receives the radius converted to `int` (for a
NaN radius that conversion has no defined value and the run is a fault). -/
def grid_body {F S G : Type} (ft : FreeType F S G) (r : text_renderer) (start : FT_Vector)
    (feature_id : Int) (g : glyph_t G) (halo_radius : double) : step G double :=
  let halo_radius := match g.properties with
    | some p => p.halo_radius * r.scale_factor_
    | none => halo_radius
  let image := ft.Glyph_Transform g.image start
  match ft.Glyph_To_Bitmap image with
  | none => ⟨{ g with image := image }, halo_radius, [call.To_Bitmap image], ctl.next⟩
  | some b =>
    let bit := ft.bitmap b
    let x := bit.left
    let y := (r.height : Int) - bit.top
    match halo_radius with
    | double.nan => ⟨{ g with image := b }, halo_radius, [call.To_Bitmap image], ctl.fault⟩
    | double.finite q =>
      let ri := double_to_int q
      let rh := call.render_halo_id bit.bitmap feature_id x y ri
      match render_halo_id bit.bitmap feature_id x y ri with
      | none => ⟨{ g with image := b }, halo_radius, [call.To_Bitmap image, rh], ctl.fault⟩
      | some ws =>
        ⟨{ g with image := b }, halo_radius, [call.To_Bitmap image, rh] ++ ws.map call.set,
          ctl.next⟩

/-- The function `grid_text_renderer<T>::render`. -/
def grid_render {F S G : Type} (ft : FreeType F S G) (r : text_renderer) (feature_id : Int)
    (glyphs_ : List (glyph_t G)) (pos : glyph_positions F) : pass G double :=
  let p := prepare_glyphs ft r.scale_factor_ (clear glyphs_) pos
  if p.fault then ⟨p.glyphs_, 0, [], true⟩
  else iterate (grid_body ft r (start_of r.height pos.base_point) feature_id) 0 p.glyphs_ 0

/-! ## Projections of a trace -/

/-- The `composite_pixel` calls in a trace, each with the index of its glyph. -/
def pixels {G : Type} (t : List (Nat × call G)) : List (Nat × composite_pixel) :=
  t.filterMap fun e => match e.2 with
    | call.pixel w => some (e.1, w)
    | _ => none

/-- The `composite_bitmap` invocations in a trace. -/
def composite_calls {G : Type} (t : List (Nat × call G)) : List (Nat × call G) :=
  t.filter fun e => match e.2 with
    | call.composite_bitmap _ _ _ _ _ _ => true
    | _ => false

/-- The radii passed to `render_halo` in a trace. -/
def render_halo_radii {G : Type} (t : List (Nat × call G)) : List double :=
  t.filterMap fun e => match e.2 with
    | call.render_halo _ _ _ _ halo_radius _ _ => some halo_radius
    | _ => none

/-- The arguments of `FT_Glyph_To_Bitmap` in a trace. -/
def rasterized {G : Type} (t : List (Nat × call G)) : List (Nat × G) :=
  t.filterMap fun e => match e.2 with
    | call.To_Bitmap g => some (e.1, g)
    | _ => none

/-! ## Kernels as the specification describes them -/

/-- The 3x3 kernel of the sub-pixel halo as offsets `(dx, dy)` with weights: centre 1,
orthogonal neighbours `r`, diagonal neighbours `r * r` (row by row, top row first). -/
def kernel3 (r : ℚ) : List (Int × Int × ℚ) :=
  [ (-1, -1, r * r), (0, -1, r), (1, -1, r * r),
    (-1, 0, r),      (0, 0, 1),  (1, 0, r),
    (-1, 1, r * r),  (0, 1, r),  (1, 1, r * r) ]

/-- The offsets `(m, n)` of the box of radius `r`: all `-r ≤ m, n ≤ r`, row by row. -/
def box_offsets (r : Int) : List (Int × Int) :=
  (int_loop (-r) r).flatMap fun n => (int_loop (-r) r).map fun m => (m, n)

/-- Surface coordinates of a list of `composite_pixel` calls. -/
def pixel_coords (ws : List composite_pixel) : List (Int × Int) := ws.map fun w => (w.x, w.y)

/-- Surface coordinates of a list of `setPixel` calls. -/
def set_coords (ws : List setPixel) : List (Int × Int) := ws.map fun w => (w.x, w.y)

/-- Coordinates `grid_text_renderer::render` makes `render_halo_id` write for the (double)
halo radius `r`: the call site converts `r` to the `int` parameter. -/
def halo_id_coords (b : FT_Bitmap) (feature_id x1 y1 : Int) (r : ℚ) : Option (List (Int × Int)) :=
  (render_halo_id b feature_id x1 y1 (double_to_int r)).map set_coords

/-- Coordinates `render_halo` passes to `composite_pixel` for the halo radius `r`. -/
def halo_coords (b : FT_Bitmap) (rgba : Nat) (x1 y1 : Int) (r opacity : ℚ)
    (comp_op : composite_mode_e) : Option (List (Int × Int)) :=
  (render_halo b rgba x1 y1 r opacity comp_op).map pixel_coords

/-! ## The fill pass as the specification describes it -/

/-- The `composite_bitmap` invocation the fill pass owes to the prepared glyph `e.2` at index
`e.1`: the bitmap of the stored outline translated by `start`, the glyph's own fill colour and
opacity, at `(left, height - top)`; none when rasterization fails. -/
def expected_fill_call {F S G : Type} (ft : FreeType F S G) (r : text_renderer)
    (start : FT_Vector) (e : Nat × glyph_t G) : Option (Nat × call G) :=
  match e.2.properties, ft.Glyph_To_Bitmap (ft.Glyph_Transform e.2.image start) with
  | some p, some b =>
    some (e.1, call.composite_bitmap (ft.bitmap b).bitmap p.fill (ft.bitmap b).left
      ((r.height : Int) - (ft.bitmap b).top) p.text_opacity r.comp_op_)
  | _, _ => none

/-- The same prepared glyphs with every halo radius replaced. -/
def with_halo_radii {G : Type} (ρ : char_properties → double) (gs : List (glyph_t G)) :
    List (glyph_t G) :=
  gs.map fun g => { g with properties := g.properties.map fun p => { p with halo_radius := ρ p } }

/-- Every bitmap FreeType produces holds `width * rows` samples. -/
def FreeType.sized_bitmaps {F S G : Type} (ft : FreeType F S G) : Prop :=
  ∀ g b, ft.Glyph_To_Bitmap g = some b → (ft.bitmap b).bitmap.sized

/-! ## The transform stage as the specification describes it -/

/-- The outline a placement yields, present exactly when the outline load and the outline
extraction both succeed (the face being sized from the placement's own format). -/
def outline_of {F S G : Type} (ft : FreeType F S G) (scale_factor_ : ℚ)
    (itr : glyph_position F) : Option G :=
  match itr.glyph.format with
  | none => none
  | some format =>
    (ft.Load_Glyph itr.glyph.face (format.text_size * scale_factor_) (rotation_matrix itr.rot)
      (pen_of itr) itr.glyph.glyph_index).bind ft.Get_Glyph

/-- Run-length inheritance as the specification words it: the format active at each
placement is the most recent explicit format at or before it (`cur` is the format active
before the first placement). -/
def active_formats {F : Type} :
    Option char_properties → List (glyph_position F) → List (Option char_properties)
  | _, [] => []
  | cur, itr :: rest =>
    let active := match itr.glyph.format with
      | some format => some format
      | none => cur
    active :: active_formats active rest

/-- The face sizes the specification prescribes: `text_size * scale_factor` of the active
format of each placement. -/
def inherited_sizes {F : Type} (scale_factor_ : ℚ) (ps : List (glyph_position F)) :
    List (Option ℚ) :=
  (active_formats none ps).map (Option.map fun format => format.text_size * scale_factor_)

/-! ## A concrete environment for instantiating the theorems -/

/-- A FreeType environment over numbers: glyph index 0 fails to load, slot 1 fails to
extract, translation adds the pen offset, stroking adds a constant, and every glyph
rasterizes to a 1x1 bitmap with a nonzero sample. -/
def ft_example : FreeType Nat Nat Nat where
  Load_Glyph := fun _ _ _ _ index => if index = 0 then none else some index
  Get_Glyph := fun slot => if slot = 1 then none else some slot
  Glyph_Copy := fun g => some g
  Glyph_Transform := fun g delta => g + 1000 * delta.x.toNat
  Glyph_Stroke := fun _ g => g + 100000
  Glyph_To_Bitmap := fun g => some g
  bitmap := fun g => ⟨(g % 10 : Nat), 0, ⟨1, 1, [g % 7 + 1]⟩⟩

/-- A format with halo radius 3. -/
def format_ok : char_properties := ⟨12, 1, 2, double.finite 3, 1⟩

/-- A format with halo radius exactly 1024. -/
def format_edge : char_properties := ⟨12, 1, 2, double.finite 1024, 1⟩

/-- A format with halo radius 2000 (outside `(0, 1024]`). -/
def format_bad : char_properties := ⟨14, 5, 6, double.finite 2000, 1⟩

/-- A format whose halo radius is NaN. -/
def format_nan : char_properties := ⟨12, 1, 2, double.nan, 1⟩

/-- Three prepared glyphs; the middle one carries the out-of-range radius. -/
def glyphs_example : List (glyph_t Nat) :=
  [⟨2, some format_ok⟩, ⟨3, some format_bad⟩, ⟨4, some format_ok⟩]

/-- A renderer with scale factor 1 on a surface of height 100. -/
def renderer_example (rasterizer : halo_rasterizer_e) : text_renderer := ⟨rasterizer, 0, 1, 100⟩

/-- A placement at the origin, unrotated, of glyph `index` on face 5. -/
def placement_example (index : Nat) (format : Option char_properties) : glyph_position Nat :=
  ⟨⟨index, 5, 0, 0, 0, 0, 0, ⟨0, 0⟩, format⟩, ⟨0, 0⟩, ⟨0, 1⟩⟩

/-- Two placements; the second has no format of its own. -/
def positions_absent : glyph_positions Nat :=
  ⟨[placement_example 2 (some format_ok), placement_example 3 none], ⟨1, 1⟩⟩

/-- Three placements that all load and extract; the second has no format of its own. -/
def positions_gap : glyph_positions Nat :=
  ⟨[placement_example 2 (some format_ok), placement_example 3 none,
    placement_example 4 (some format_ok)], ⟨1, 1⟩⟩

/-- One placement whose format has a NaN halo radius. -/
def positions_nan : glyph_positions Nat :=
  ⟨[placement_example 2 (some format_nan)], ⟨1, 1⟩⟩

/-! ## Lemmas on doubles -/

theorem double.finite_le (a b : ℚ) : double.finite a ≤ double.finite b ↔ a ≤ b := Iff.rfl

theorem double.finite_lt (a b : ℚ) : double.finite a < double.finite b ↔ a < b := Iff.rfl

theorem double.not_nan_le (d : double) : ¬ (double.nan ≤ d) := fun h => h

theorem double.not_le_nan (d : double) : ¬ (d ≤ double.nan) := by
  cases d <;> exact fun h => h

theorem double.not_nan_lt (d : double) : ¬ (double.nan < d) := fun h => h

theorem double.not_lt_nan (d : double) : ¬ (d < double.nan) := by
  cases d <;> exact fun h => h

theorem double.finite_mul (a q : ℚ) : double.finite a * q = double.finite (a * q) := rfl

theorem double.nan_mul (q : ℚ) : double.nan * q = double.nan := rfl

theorem double.zero_eq : (0 : double) = double.finite 0 := rfl

theorem double.lit_1024 : (1024 : double) = double.finite 1024 := rfl

/-- A double that passes the test of renderer.cpp 161 is NaN or lies in `(0, 1024]`. -/
theorem double.passes_test (d : double) :
    ¬ (d ≤ 0 ∨ d > 1024) ↔ d = double.nan ∨ ∃ q : ℚ, d = double.finite q ∧ 0 < q ∧ q ≤ 1024 := by
  cases d with
  | nan =>
    simp [double.not_nan_le, double.not_lt_nan]
  | finite q =>
    simp only [double.zero_eq, double.lit_1024, gt_iff_lt, double.finite_le, double.finite_lt,
      not_or, not_le, not_lt, double.finite.injEq, false_or, reduceCtorEq]
    constructor
    · intro h
      exact ⟨q, rfl, h⟩
    · rintro ⟨q1, rfl, h⟩
      exact h

/-! ## Lemmas on loops and bitmaps -/

theorem for_each_eq_some {ι W : Type} (is : List ι) (f : ι → Option (List W))
    (g : ι → List W) (h : ∀ i ∈ is, f i = some (g i)) :
    for_each is f = some (is.flatMap g) := by
  induction is with
  | nil => rfl
  | cons i is ih =>
    have h1 : f i = some (g i) := h i (List.mem_cons_self _ _)
    have h2 : for_each is f = some (is.flatMap g) :=
      ih fun j hj => h j (List.mem_cons_of_mem _ hj)
    simp [for_each, h1, h2]

theorem FT_Bitmap.read_eq (b : FT_Bitmap) (h : b.sized) {p q : Nat} (hp : p < b.width)
    (hq : q < b.rows) : b.buffer[q * b.width + p]? = some (b.sample p q) := by
  have hlt : q * b.width + p < b.buffer.length := by
    rw [h]
    calc q * b.width + p < q * b.width + b.width := by omega
      _ = b.width * (q + 1) := by ring
      _ ≤ b.width * b.rows := Nat.mul_le_mul_left _ hq
  simp [FT_Bitmap.sample, List.getD, List.getElem?_eq_getElem hlt]

theorem flatMap_row {β γ : Type} (ys : List β) (P : β → Bool) (f : β → List γ) :
    (ys.filter P).flatMap f = ys.flatMap fun y => if P y then f y else [] := by
  induction ys with
  | nil => rfl
  | cons y ys ih =>
    by_cases hy : P y <;> simp [List.filter_cons, hy, ih]

theorem flatMap_grid {α β γ : Type} (xs : List α) (ys : List β) (P : α × β → Bool)
    (f : α × β → List γ) :
    ((xs.flatMap fun x => ys.map fun y => (x, y)).filter P).flatMap f
      = xs.flatMap fun x => ys.flatMap fun y => if P (x, y) then f (x, y) else [] := by
  induction xs with
  | nil => rfl
  | cons x xs ih =>
    simp only [List.flatMap_cons, List.filter_append, List.flatMap_append, ih]
    congr 1
    rw [flatMap_row]
    simp [List.flatMap_map]

/-- The nested scan shared by the three pixel writers: on a sized bitmap no read fails and
the emitted calls are those of the nonzero cells, in loop order. -/
theorem scan_eq {W : Type} (b : FT_Bitmap) (h : b.sized) (emit : Nat → Nat → Nat → List W) :
    (for_each (List.range b.width) fun x =>
      for_each (List.range b.rows) fun y =>
        match b.buffer[y * b.width + x]? with
        | none => none
        | some gray => if gray ≠ 0 then some (emit x y gray) else some [])
      = some (b.nonzero_cells.flatMap fun c => emit c.1 c.2 (b.sample c.1 c.2)) := by
  rw [for_each_eq_some (List.range b.width) _
    (fun x => (List.range b.rows).flatMap fun y =>
      if b.sample x y ≠ 0 then emit x y (b.sample x y) else [])]
  · simp only [FT_Bitmap.nonzero_cells, FT_Bitmap.cells]
    rw [flatMap_grid]
    simp
  · intro x hx
    apply for_each_eq_some
    intro y hy
    rw [b.read_eq h (List.mem_range.mp hx) (List.mem_range.mp hy)]
    by_cases hg : b.sample x y = 0 <;> simp [hg]

theorem int_loop_mem (lo hi n : Int) : n ∈ int_loop lo hi ↔ lo ≤ n ∧ n ≤ hi := by
  simp only [int_loop, List.mem_map, List.mem_range]
  constructor
  · rintro ⟨k, hk, rfl⟩
    omega
  · rintro ⟨h1, h2⟩
    exact ⟨(n - lo).toNat, by omega, by omega⟩

/-- The loop test `n <= halo_radius` against a double bound is a test against its floor. -/
theorem int_loop_floor_mem (lo n : Int) (r : ℚ) :
    n ∈ int_loop lo ⌊r⌋ ↔ lo ≤ n ∧ (n : ℚ) ≤ r := by
  rw [int_loop_mem, Int.le_floor]

theorem int_loop_length (lo hi : Int) : (int_loop lo hi).length = (hi + 1 - lo).toNat := by
  simp [int_loop]

theorem int_loop_nodup (lo hi : Int) : (int_loop lo hi).Nodup := by
  unfold int_loop
  refine (List.nodup_range _).map ?_
  intro a b hab
  simpa using hab

theorem double_to_int_of_nonneg {d : ℚ} (h : 0 ≤ d) : double_to_int d = ⌊d⌋ := by
  simp [double_to_int, h]

theorem double_to_int_neg {d : ℚ} (h : 0 < d) : double_to_int (-d) = -⌊d⌋ := by
  have : ¬ (0 ≤ -d) := by linarith
  simp [double_to_int, Int.ceil_neg, h]

theorem box_offsets_mem (r m n : Int) :
    (m, n) ∈ box_offsets r ↔ (-r ≤ m ∧ m ≤ r) ∧ (-r ≤ n ∧ n ≤ r) := by
  simp only [box_offsets, List.mem_flatMap, List.mem_map, int_loop_mem, Prod.mk.injEq]
  constructor
  · rintro ⟨n1, hn, m1, hm, rfl, rfl⟩
    exact ⟨hm, hn⟩
  · rintro ⟨hm, hn⟩
    exact ⟨n, hn, m, hm, rfl, rfl⟩

theorem box_offsets_length (r : Int) (h : 0 ≤ r) :
    (box_offsets r).length = (2 * r.toNat + 1) ^ 2 := by
  have hl : (int_loop (-r) r).length = 2 * r.toNat + 1 := by
    rw [int_loop_length]; omega
  simp only [box_offsets, List.length_flatMap, List.length_map, Function.comp_def]
  rw [List.map_const', List.sum_replicate, hl]
  simp [pow_two]

theorem box_offsets_nodup (r : Int) : (box_offsets r).Nodup := by
  unfold box_offsets
  rw [List.nodup_flatMap]
  refine ⟨fun n _ => (int_loop_nodup _ _).map fun a b hab => by simpa using hab, ?_⟩
  refine (int_loop_nodup _ _).pairwise_of_forall_ne ?_
  intro n1 _ n2 _ hne
  simp only [Function.onFun]
  intro c h1 h2
  simp only [List.mem_map] at h1 h2
  obtain ⟨_, _, rfl⟩ := h1
  obtain ⟨_, _, h⟩ := h2
  exact hne (by simpa using (congrArg Prod.snd h).symm)

theorem cells_mem (b : FT_Bitmap) (p q : Nat) : (p, q) ∈ b.cells ↔ p < b.width ∧ q < b.rows := by
  simp only [FT_Bitmap.cells, List.mem_flatMap, List.mem_map, List.mem_range, Prod.mk.injEq]
  constructor
  · rintro ⟨p1, hp, q1, hq, rfl, rfl⟩
    exact ⟨hp, hq⟩
  · rintro ⟨hp, hq⟩
    exact ⟨p, hp, q, hq, rfl, rfl⟩

theorem nonzero_cells_mem (b : FT_Bitmap) (p q : Nat) :
    (p, q) ∈ b.nonzero_cells ↔ p < b.width ∧ q < b.rows ∧ b.sample p q ≠ 0 := by
  simp [FT_Bitmap.nonzero_cells, cells_mem, and_assoc]

theorem cells_nodup (b : FT_Bitmap) : b.cells.Nodup :=
  List.Nodup.product (List.nodup_range _) (List.nodup_range _)

theorem nonzero_cells_nodup (b : FT_Bitmap) : b.nonzero_cells.Nodup :=
  (cells_nodup b).filter _

theorem filter_eq_of_nodup {α : Type} [DecidableEq α] (l : List α) (hn : l.Nodup) (a : α) :
    l.filter (fun c => decide (c = a)) = if a ∈ l then [a] else [] := by
  induction l with
  | nil => simp
  | cons c l ih =>
    rw [List.nodup_cons] at hn
    by_cases hc : c = a
    · subst hc
      have : l.filter (fun d => decide (d = c)) = [] := by
        rw [ih hn.2]; simp [hn.1]
      simp [List.filter_cons, this]
    · have hc2 : ¬ a = c := fun h => hc h.symm
      simp [List.filter_cons, hc, hc2, ih hn.2]

theorem composite_bitmap_closed (b : FT_Bitmap) (rgba : Nat) (x y : Int) (opacity : ℚ)
    (comp_op : composite_mode_e) (h : b.sized) :
    composite_bitmap b rgba x y opacity comp_op
      = some (b.nonzero_cells.map fun c =>
          ⟨comp_op, x + c.1, y + c.2, rgba, b.sample c.1 c.2, opacity⟩) := by
  refine (scan_eq b h fun p q gray =>
    [(⟨comp_op, x + (p : Int), y + (q : Int), rgba, (gray : ℚ), opacity⟩ : composite_pixel)]).trans ?_
  congr 1
  induction b.nonzero_cells with
  | nil => rfl
  | cons c cs ih => simp [List.flatMap_cons, ih]

/-- C9: on a bitmap of width w and rows h whose buffer has w*h samples, `composite_bitmap`
makes no read outside the buffer (it returns its calls), every call is at `(x + p, y + q)` for
a cell `(p, q)` of the bitmap, and the calls landing at `(x + p, y + q)` are exactly one call
with coverage the sample at row q, column p and the given colour, opacity and operator when
that sample is nonzero, and none when it is zero. -/
theorem composite_bitmap_writes (b : FT_Bitmap) (rgba : Nat) (x y : Int) (opacity : ℚ)
    (comp_op : composite_mode_e) (h : b.sized) :
    ∃ ws, composite_bitmap b rgba x y opacity comp_op = some ws ∧
      (∀ w ∈ ws, ∃ p q, p < b.width ∧ q < b.rows ∧ w.x = x + p ∧ w.y = y + q) ∧
      (∀ p q, p < b.width → q < b.rows →
        ws.filter (fun w => decide (w.x = x + p ∧ w.y = y + q))
          = if b.sample p q ≠ 0 then
              [⟨comp_op, x + p, y + q, rgba, b.sample p q, opacity⟩]
            else []) := by
  refine ⟨_, composite_bitmap_closed b rgba x y opacity comp_op h, ?_, ?_⟩
  · intro w hw
    simp only [List.mem_map] at hw
    obtain ⟨⟨p, q⟩, hc, rfl⟩ := hw
    have := (nonzero_cells_mem b p q).mp hc
    exact ⟨p, q, this.1, this.2.1, rfl, rfl⟩
  · intro p q hp hq
    rw [List.filter_map]
    have hf : (fun w : composite_pixel => decide (w.x = x + (p : Int) ∧ w.y = y + (q : Int))) ∘
        (fun c : Nat × Nat => (⟨comp_op, x + c.1, y + c.2, rgba, b.sample c.1 c.2, opacity⟩ :
          composite_pixel)) = fun c => decide (c = (p, q)) := by
      funext c
      obtain ⟨c1, c2⟩ := c
      simp only [Function.comp, Prod.mk.injEq, decide_eq_decide]
      omega
    rw [hf, filter_eq_of_nodup _ (nonzero_cells_nodup b)]
    by_cases hs : b.sample p q = 0
    · have : (p, q) ∉ b.nonzero_cells := by
        rw [nonzero_cells_mem]; tauto
      simp [hs, this]
    · have : (p, q) ∈ b.nonzero_cells := (nonzero_cells_mem b p q).mpr ⟨hp, hq, hs⟩
      simp [hs, this]

/-- Witness: a 2x2 bitmap with two nonzero samples. -/
theorem composite_bitmap_writes_witness :
    (⟨2, 2, [0, 5, 7, 0]⟩ : FT_Bitmap).sized ∧
    ∃ ws, composite_bitmap ⟨2, 2, [0, 5, 7, 0]⟩ 9 10 20 1 3 = some ws ∧
      (∀ w ∈ ws, ∃ p q : Nat, p < 2 ∧ q < 2 ∧ w.x = 10 + (p : Int) ∧ w.y = 20 + (q : Int)) ∧
      (∀ p q : Nat, p < 2 → q < 2 →
        ws.filter (fun w => decide (w.x = 10 + (p : Int) ∧ w.y = 20 + (q : Int)))
          = if (⟨2, 2, [0, 5, 7, 0]⟩ : FT_Bitmap).sample p q ≠ 0 then
              [⟨3, 10 + (p : Int), 20 + (q : Int), 9,
                ((⟨2, 2, [0, 5, 7, 0]⟩ : FT_Bitmap).sample p q : ℚ), 1⟩]
            else []) :=
  ⟨by decide, composite_bitmap_writes ⟨2, 2, [0, 5, 7, 0]⟩ 9 10 20 1 3 (by decide)⟩

theorem render_halo_closed_lt (b : FT_Bitmap) (rgba : Nat) (x1 y1 : Int) (r opacity : ℚ)
    (comp_op : composite_mode_e) (h : b.sized) (hr : r < 1) :
    render_halo b rgba x1 y1 r opacity comp_op
      = some (b.nonzero_cells.flatMap fun c =>
          halo_kernel3 comp_op rgba x1 y1 r opacity c.1 c.2 (b.sample c.1 c.2)) := by
  unfold render_halo
  rw [if_pos hr]
  exact scan_eq b h fun x y gray => halo_kernel3 comp_op rgba x1 y1 r opacity x y gray

theorem render_halo_closed_ge (b : FT_Bitmap) (rgba : Nat) (x1 y1 : Int) (r opacity : ℚ)
    (comp_op : composite_mode_e) (h : b.sized) (hr : 1 ≤ r) :
    render_halo b rgba x1 y1 r opacity comp_op
      = some (b.nonzero_cells.flatMap fun c =>
          halo_box comp_op rgba x1 y1 r opacity c.1 c.2 (b.sample c.1 c.2)) := by
  unfold render_halo
  rw [if_neg (not_lt.mpr hr)]
  exact scan_eq b h fun x y gray => halo_box comp_op rgba x1 y1 r opacity x y gray

theorem render_halo_id_closed (b : FT_Bitmap) (feature_id x1 y1 r : Int) (h : b.sized) :
    render_halo_id b feature_id x1 y1 r
      = some (b.nonzero_cells.flatMap fun c =>
          (box_offsets r).map fun o => ⟨c.1 + x1 + o.1, c.2 + y1 + o.2, feature_id⟩) := by
  refine (scan_eq b h fun x y _ => (int_loop (-r) r).flatMap fun n =>
    (int_loop (-r) r).map fun m => (⟨x + x1 + m, y + y1 + n, feature_id⟩ : setPixel)).trans ?_
  simp [box_offsets, List.map_flatMap, List.map_map, Function.comp_def]

theorem halo_box_eq (comp_op : composite_mode_e) (rgba : Nat) (x1 y1 : Int) (r opacity : ℚ)
    (x y gray : Nat) (hr : 1 ≤ r) :
    halo_box comp_op rgba x1 y1 r opacity x y gray
      = (box_offsets (double_to_int r)).map fun o =>
          ⟨comp_op, x + x1 + o.1, y + y1 + o.2, rgba, gray, opacity⟩ := by
  have h0 : (0 : ℚ) < r := by linarith
  simp [halo_box, box_offsets, double_to_int_neg h0, double_to_int_of_nonneg h0.le,
    List.map_flatMap, List.map_map, Function.comp_def]

/-- C3: for a halo radius r < 1.0 and a sized bitmap, `render_halo` issues, for the nonzero
samples in scan order and for nothing else, the nine calls of the 3x3 kernel around
`(x + x1, y + y1)`: coverage G at the centre, G*r at the four orthogonal neighbours and G*r*r
at the four diagonal neighbours; the nonzero cells are visited once each. In particular a
lone sample G with r = 0.5 gives nine calls with coverages G, G/2 and G/4. -/
theorem render_halo_subpixel (b : FT_Bitmap) (rgba : Nat) (x1 y1 : Int) (r opacity : ℚ)
    (comp_op : composite_mode_e) (h : b.sized) (hr : r < 1) :
    render_halo b rgba x1 y1 r opacity comp_op
        = some (b.nonzero_cells.flatMap fun c => (kernel3 r).map fun k =>
            ⟨comp_op, c.1 + x1 + k.1, c.2 + y1 + k.2.1, rgba, b.sample c.1 c.2 * k.2.2, opacity⟩)
    ∧ (kernel3 r).length = 9
    ∧ b.nonzero_cells.Nodup
    ∧ (∀ p q, (p, q) ∈ b.nonzero_cells ↔ p < b.width ∧ q < b.rows ∧ b.sample p q ≠ 0)
    ∧ (∀ G : Nat, G ≠ 0 → render_halo ⟨1, 1, [G]⟩ rgba x1 y1 (1 / 2) opacity comp_op
        = some [ ⟨comp_op, x1 - 1, y1 - 1, rgba, G / 4, opacity⟩,
                 ⟨comp_op, x1,     y1 - 1, rgba, G / 2, opacity⟩,
                 ⟨comp_op, x1 + 1, y1 - 1, rgba, G / 4, opacity⟩,
                 ⟨comp_op, x1 - 1, y1,     rgba, G / 2, opacity⟩,
                 ⟨comp_op, x1,     y1,     rgba, G, opacity⟩,
                 ⟨comp_op, x1 + 1, y1,     rgba, G / 2, opacity⟩,
                 ⟨comp_op, x1 - 1, y1 + 1, rgba, G / 4, opacity⟩,
                 ⟨comp_op, x1,     y1 + 1, rgba, G / 2, opacity⟩,
                 ⟨comp_op, x1 + 1, y1 + 1, rgba, G / 4, opacity⟩ ]) := by
  refine ⟨?_, rfl, nonzero_cells_nodup b, nonzero_cells_mem b, ?_⟩
  · rw [render_halo_closed_lt b rgba x1 y1 r opacity comp_op h hr]
    congr 1
    refine List.flatMap_congr ?_ |>.trans rfl
    intro c _
    simp only [halo_kernel3, kernel3, List.map_cons, List.map_nil]
    simp only [List.cons.injEq, composite_pixel.mk.injEq, and_true, true_and]
    refine ⟨⟨?_, ?_, ?_⟩, ⟨?_, ?_⟩, ⟨?_, ?_⟩, ⟨?_, ?_⟩, ⟨?_, ?_, ?_⟩, ?_, ⟨?_, ?_⟩, ?_, ?_⟩ <;> ring
  · intro G hG
    have hs : (⟨1, 1, [G]⟩ : FT_Bitmap).sized := by simp [FT_Bitmap.sized]
    rw [render_halo_closed_lt _ rgba x1 y1 (1 / 2) opacity comp_op hs (by norm_num)]
    have hc : (⟨1, 1, [G]⟩ : FT_Bitmap).nonzero_cells = [(0, 0)] := by
      simp [FT_Bitmap.nonzero_cells, FT_Bitmap.cells, FT_Bitmap.sample, hG, List.range_succ]
    rw [hc]
    simp only [List.flatMap_cons, List.flatMap_nil, List.append_nil, halo_kernel3,
      FT_Bitmap.sample]
    simp only [Option.some.injEq, List.cons.injEq, composite_pixel.mk.injEq, and_true, true_and]
    norm_num
    ring_nf
    simp

/-- Witness: a 1x2 bitmap with one nonzero sample and r = 1/4. -/
theorem render_halo_subpixel_witness :
    (⟨2, 1, [0, 8]⟩ : FT_Bitmap).sized ∧ (1 / 4 : ℚ) < 1 ∧
    render_halo ⟨2, 1, [0, 8]⟩ 9 10 20 (1 / 4) 1 3
      = some ((⟨2, 1, [0, 8]⟩ : FT_Bitmap).nonzero_cells.flatMap fun c =>
          (kernel3 (1 / 4)).map fun k =>
            ⟨3, c.1 + 10 + k.1, c.2 + 20 + k.2.1, 9,
              (⟨2, 1, [0, 8]⟩ : FT_Bitmap).sample c.1 c.2 * k.2.2, 1⟩) :=
  ⟨by decide, by norm_num,
    (render_halo_subpixel ⟨2, 1, [0, 8]⟩ 9 10 20 (1 / 4) 1 3 (by decide) (by norm_num)).1⟩

theorem single_sample_cells (G : Nat) (hG : G ≠ 0) :
    (⟨1, 1, [G]⟩ : FT_Bitmap).nonzero_cells = [(0, 0)] := by
  simp [FT_Bitmap.nonzero_cells, FT_Bitmap.cells, FT_Bitmap.sample, hG, List.range_succ]

/-- C4: for a halo radius >= 1.0 with r the radius truncated to an integer, `render_halo` on a
sized bitmap issues, for the nonzero samples in scan order and for nothing else, one call
with coverage G at every offset `(m, n)`, `-r ≤ m, n ≤ r`, from `(x + x1, y + y1)`: a box
of `(2r+1)^2` distinct offsets. A lone sample gives 25 calls with coverage G for radius 2,
and also for radius 2.5. -/
theorem render_halo_box (b : FT_Bitmap) (rgba : Nat) (x1 y1 : Int) (r opacity : ℚ)
    (comp_op : composite_mode_e) (h : b.sized) (hr : 1 ≤ r) :
    render_halo b rgba x1 y1 r opacity comp_op
        = some (b.nonzero_cells.flatMap fun c => (box_offsets (double_to_int r)).map fun o =>
            ⟨comp_op, c.1 + x1 + o.1, c.2 + y1 + o.2, rgba, b.sample c.1 c.2, opacity⟩)
    ∧ (box_offsets (double_to_int r)).length = (2 * (double_to_int r).toNat + 1) ^ 2
    ∧ (box_offsets (double_to_int r)).Nodup
    ∧ (∀ m n, (m, n) ∈ box_offsets (double_to_int r) ↔
        (-double_to_int r ≤ m ∧ m ≤ double_to_int r) ∧
        (-double_to_int r ≤ n ∧ n ≤ double_to_int r))
    ∧ b.nonzero_cells.Nodup
    ∧ (∀ p q, (p, q) ∈ b.nonzero_cells ↔ p < b.width ∧ q < b.rows ∧ b.sample p q ≠ 0)
    ∧ (∀ G : Nat, G ≠ 0 → ∀ ρ : ℚ, ρ = 2 ∨ ρ = 5 / 2 →
        render_halo ⟨1, 1, [G]⟩ rgba x1 y1 ρ opacity comp_op
          = some ((box_offsets 2).map fun o => ⟨comp_op, x1 + o.1, y1 + o.2, rgba, G, opacity⟩)
        ∧ (box_offsets 2).length = 25) := by
  have h0 : (0 : ℚ) ≤ r := by linarith
  have hR : 0 ≤ double_to_int r := by
    rw [double_to_int_of_nonneg h0]; exact Int.floor_nonneg.mpr h0
  refine ⟨?_, box_offsets_length _ hR, box_offsets_nodup _, box_offsets_mem _,
    nonzero_cells_nodup b, nonzero_cells_mem b, ?_⟩
  · rw [render_halo_closed_ge b rgba x1 y1 r opacity comp_op h hr]
    congr 1
    exact List.flatMap_congr fun c _ => halo_box_eq comp_op rgba x1 y1 r opacity _ _ _ hr
  · intro G hG ρ hρ
    have hs : (⟨1, 1, [G]⟩ : FT_Bitmap).sized := by simp [FT_Bitmap.sized]
    have hρ1 : (1 : ℚ) ≤ ρ := by rcases hρ with rfl | rfl <;> norm_num
    have hρ2 : double_to_int ρ = 2 := by
      rw [double_to_int_of_nonneg (by linarith)]
      rcases hρ with rfl | rfl <;> norm_num
    refine ⟨?_, ?_⟩
    · rw [render_halo_closed_ge _ rgba x1 y1 ρ opacity comp_op hs hρ1, single_sample_cells G hG]
      simp [halo_box_eq _ _ _ _ _ _ _ _ _ hρ1, hρ2, FT_Bitmap.sample]
    · rw [box_offsets_length 2 (by norm_num)]
      rfl

/-- Witness: a lone sample with radius 5/2. -/
theorem render_halo_box_witness :
    (⟨1, 1, [7]⟩ : FT_Bitmap).sized ∧ (1 : ℚ) ≤ 5 / 2 ∧
    render_halo ⟨1, 1, [7]⟩ 9 10 20 (5 / 2) 1 3
      = some ((⟨1, 1, [7]⟩ : FT_Bitmap).nonzero_cells.flatMap fun c =>
          (box_offsets (double_to_int (5 / 2))).map fun o =>
            ⟨3, c.1 + 10 + o.1, c.2 + 20 + o.2, 9,
              (⟨1, 1, [7]⟩ : FT_Bitmap).sample c.1 c.2, 1⟩) :=
  ⟨by decide, by norm_num,
    (render_halo_box ⟨1, 1, [7]⟩ 9 10 20 (5 / 2) 1 3 (by decide) (by norm_num)).1⟩

theorem halo_id_coords_closed (b : FT_Bitmap) (feature_id x1 y1 : Int) (r : ℚ) (h : b.sized) :
    halo_id_coords b feature_id x1 y1 r
      = some (b.nonzero_cells.flatMap fun c =>
          (box_offsets (double_to_int r)).map fun o => (c.1 + x1 + o.1, c.2 + y1 + o.2)) := by
  simp [halo_id_coords, render_halo_id_closed b feature_id x1 y1 _ h, set_coords,
    List.map_flatMap, Function.comp_def]

/-- C5 (as stated) fails: for the 1x1 bitmap with sample 255 and halo radius 0.5 the grid
writer touches one coordinate and the fast halo nine, so the coordinate sets differ. -/
theorem grid_twin_counterexample :
    ¬ (∀ c : Int × Int,
        c ∈ (halo_id_coords ⟨1, 1, [255]⟩ 7 0 0 (1 / 2)).getD [] ↔
        c ∈ (halo_coords ⟨1, 1, [255]⟩ 0 0 0 (1 / 2) 1 0).getD []) := by
  intro hall
  have hs : (⟨1, 1, [255]⟩ : FT_Bitmap).sized := by decide
  have h1 : halo_id_coords ⟨1, 1, [255]⟩ 7 0 0 (1 / 2) = some [(0, 0)] := by
    rw [halo_id_coords_closed _ _ _ _ _ hs, single_sample_cells 255 (by decide)]
    have : double_to_int (1 / 2) = 0 := by
      rw [double_to_int_of_nonneg (by norm_num)]; norm_num
    rw [this]
    rfl
  have h2 : (1, 0) ∈ (halo_coords ⟨1, 1, [255]⟩ 0 0 0 (1 / 2) 1 0).getD [] := by
    rw [halo_coords, render_halo_closed_lt _ _ _ _ _ _ _ hs (by norm_num),
      single_sample_cells 255 (by decide)]
    simp [halo_kernel3, pixel_coords]
  have h3 := (hall (1, 0)).mpr h2
  rw [h1] at h3
  simp at h3

/-- C5 (amended): on a sized bitmap, for every halo radius >= 1.0 the coordinates
`render_halo_id` passes to `setPixel` are those `render_halo` passes to `composite_pixel`, in
the same order; for a radius in `[0, 1)` the grid writer has no 3x3 kernel: the radius
arrives truncated to 0 and only the nonzero samples' own coordinates are written. -/
theorem grid_twin_from_one (b : FT_Bitmap) (feature_id : Int) (rgba : Nat) (x1 y1 : Int)
    (r opacity : ℚ) (comp_op : composite_mode_e) (h : b.sized) :
    (1 ≤ r → ∃ cs, halo_id_coords b feature_id x1 y1 r = some cs ∧
        halo_coords b rgba x1 y1 r opacity comp_op = some cs)
    ∧ (0 ≤ r → r < 1 → halo_id_coords b feature_id x1 y1 r
        = some (b.nonzero_cells.map fun c => (c.1 + x1, c.2 + y1))) := by
  refine ⟨fun hr => ⟨_, halo_id_coords_closed b feature_id x1 y1 r h, ?_⟩, fun h0 h1 => ?_⟩
  · rw [halo_coords, render_halo_closed_ge b rgba x1 y1 r opacity comp_op h hr]
    simp [pixel_coords, List.map_flatMap, halo_box_eq _ _ _ _ _ _ _ _ _ hr, Function.comp_def]
  · rw [halo_id_coords_closed b feature_id x1 y1 r h]
    have hz : double_to_int r = 0 := by
      rw [double_to_int_of_nonneg h0]
      exact Int.floor_eq_zero_iff.mpr ⟨h0, h1⟩
    have hb : box_offsets 0 = [(0, 0)] := rfl
    rw [hz, hb]
    congr 1
    induction b.nonzero_cells with
    | nil => rfl
    | cons c cs ih =>
      simp only [List.map_cons, List.map_nil, add_zero] at ih
      simp [List.flatMap_cons, ih]

/-- Witness: radius 2 and radius 1/2 on a lone sample. -/
theorem grid_twin_from_one_witness :
    (⟨1, 1, [255]⟩ : FT_Bitmap).sized ∧
    ((1 : ℚ) ≤ 2 ∧ ∃ cs, halo_id_coords ⟨1, 1, [255]⟩ 7 0 0 2 = some cs ∧
        halo_coords ⟨1, 1, [255]⟩ 0 0 0 2 1 0 = some cs)
    ∧ ((0 : ℚ) ≤ 1 / 2 ∧ (1 / 2 : ℚ) < 1 ∧ halo_id_coords ⟨1, 1, [255]⟩ 7 0 0 (1 / 2)
        = some ((⟨1, 1, [255]⟩ : FT_Bitmap).nonzero_cells.map fun c =>
            ((c.1 : Int) + 0, (c.2 : Int) + 0))) :=
  ⟨by decide,
    ⟨by norm_num,
      (grid_twin_from_one ⟨1, 1, [255]⟩ 7 0 0 0 2 1 0 (by decide)).1 (by norm_num)⟩,
    ⟨by norm_num, by norm_num,
      (grid_twin_from_one ⟨1, 1, [255]⟩ 7 0 0 0 (1 / 2) 1 0 (by decide)).2
        (by norm_num) (by norm_num)⟩⟩

/-! ## Lemmas on the glyph loops -/

theorem iterate_take_of_break {G L : Type} (body : glyph_t G → L → step G L) (g : glyph_t G)
    (hg : ∀ l, (body g l).ctl = ctl.brk ∧ (body g l).calls = []) :
    ∀ (gs : List (glyph_t G)) (k i : Nat) (l : L), gs[k]? = some g →
      (iterate body i gs l).calls = (iterate body i (gs.take k) l).calls ∧
      (iterate body i gs l).fault = (iterate body i (gs.take k) l).fault
  | [], k, i, l, h => by simp at h
  | g0 :: rest, 0, i, l, h => by
    simp only [List.getElem?_cons_zero, Option.some.injEq] at h
    subst h
    simp [iterate, (hg l).1, (hg l).2]
  | g0 :: rest, k + 1, i, l, h => by
    have ih := iterate_take_of_break body g hg rest k (i + 1) (body g0 l).locals
      (by simpa using h)
    simp only [List.take_succ_cons, iterate]
    cases hc : (body g0 l).ctl <;> simp [ih]

theorem iterate_call_origin {G L : Type} (body : glyph_t G → L → step G L) (Inv : L → Prop)
    (hInv : ∀ g l, Inv l → (body g l).ctl = ctl.next → Inv (body g l).locals) :
    ∀ (gs : List (glyph_t G)) (i : Nat) (l : L), Inv l →
      ∀ e ∈ (iterate body i gs l).calls,
        i ≤ e.1 ∧ ∃ g l1, gs[e.1 - i]? = some g ∧ Inv l1 ∧ e.2 ∈ (body g l1).calls
  | [], i, l, _, e, he => by simp [iterate] at he
  | g0 :: rest, i, l, hl, e, he => by
    have here : ∀ e ∈ (body g0 l).calls.map (Prod.mk i),
        i ≤ e.1 ∧ ∃ g l1, (g0 :: rest)[e.1 - i]? = some g ∧ Inv l1 ∧ e.2 ∈ (body g l1).calls := by
      intro e he
      simp only [List.mem_map] at he
      obtain ⟨c, hc, rfl⟩ := he
      exact ⟨le_refl _, g0, l, by simp, hl, hc⟩
    simp only [iterate] at he
    cases hc : (body g0 l).ctl
    · simp only [hc, List.mem_append] at he
      rcases he with he | he
      · exact here e he
      · obtain ⟨h1, g, l1, h2, h3, h4⟩ :=
          iterate_call_origin body Inv hInv rest (i + 1) _ (hInv g0 l hl hc) e he
        refine ⟨by omega, g, l1, ?_, h3, h4⟩
        have : e.1 - i = (e.1 - (i + 1)) + 1 := by omega
        rw [this]
        simpa using h2
    · simp only [hc] at he
      exact here e he
    · simp only [hc] at he
      exact here e he

theorem iterate_glyphs_eq {G L : Type} (body : glyph_t G → L → step G L)
    (hb : ∀ g l, (body g l).glyph = g) :
    ∀ (gs : List (glyph_t G)) (i : Nat) (l : L), (iterate body i gs l).glyphs = gs
  | [], _, _ => rfl
  | g0 :: rest, i, l => by
    simp only [iterate]
    cases hc : (body g0 l).ctl <;> simp [hb, iterate_glyphs_eq body hb rest]

theorem iterate_no_fault {G L : Type} (body : glyph_t G → L → step G L) :
    ∀ (gs : List (glyph_t G)) (i : Nat) (l : L),
      (∀ g ∈ gs, ∀ l, (body g l).ctl ≠ ctl.fault) → (iterate body i gs l).fault = false
  | [], _, _, _ => rfl
  | g0 :: rest, i, l, h => by
    simp only [iterate]
    cases hc : (body g0 l).ctl
    · simpa using iterate_no_fault body rest (i + 1) _
        fun g hg => h g (List.mem_cons_of_mem _ hg)
    · simp
    · exact absurd hc (h g0 (List.mem_cons_self _ _) l)

theorem pixels_mem {G : Type} (t : List (Nat × call G)) (e : Nat × composite_pixel) :
    e ∈ pixels t ↔ (e.1, call.pixel e.2) ∈ t := by
  simp only [pixels, List.mem_filterMap]
  constructor
  · rintro ⟨⟨i, c⟩, hm, hc⟩
    cases c <;> simp at hc
    obtain ⟨rfl, rfl⟩ := hc
    exact hm
  · intro h
    exact ⟨_, h, rfl⟩

theorem render_halo_radii_mem {G : Type} (t : List (Nat × call G)) (ρ : double) :
    ρ ∈ render_halo_radii t ↔
      ∃ i b rgba x1 y1 opacity comp_op, (i, call.render_halo b rgba x1 y1 ρ opacity comp_op) ∈ t := by
  simp only [render_halo_radii, List.mem_filterMap]
  constructor
  · rintro ⟨⟨i, c⟩, hm, hc⟩
    cases c <;> simp at hc
    subst hc
    exact ⟨i, _, _, _, _, _, _, hm⟩
  · rintro ⟨i, b, rgba, x1, y1, opacity, comp_op, h⟩
    exact ⟨_, h, rfl⟩

theorem halo_body_break {F S G : Type} (ft : FreeType F S G) (r : text_renderer)
    (start : FT_Vector) (g : glyph_t G) (p : char_properties) (hp : g.properties = some p)
    (hbad : p.halo_radius * r.scale_factor_ ≤ 0 ∨ p.halo_radius * r.scale_factor_ > 1024)
    (l : render_locals) :
    (halo_body ft r start g l).ctl = ctl.brk ∧ (halo_body ft r start g l).calls = [] := by
  simp [halo_body, hp, hbad]

theorem halo_body_in_range {F S G : Type} (ft : FreeType F S G) (r : text_renderer)
    (start : FT_Vector) (g : glyph_t G) (p : char_properties) (hp : g.properties = some p)
    (hok : ¬ (p.halo_radius * r.scale_factor_ ≤ 0 ∨ p.halo_radius * r.scale_factor_ > 1024))
    (l : render_locals) :
    halo_body ft r start g l
      = halo_draw ft r start g
          ⟨p.halo_radius * r.scale_factor_, some p, p.halo_radius * r.scale_factor_⟩
          [call.stroker_init (p.halo_radius * r.scale_factor_)] := by
  simp only [halo_body, hp]
  rw [if_neg hok]

/-- The halo pass over a list whose glyph `k` carries an out-of-range radius is the halo pass
over the first `k` glyphs, and all its calls belong to glyphs before `k`. -/
theorem halo_pass_cut {F S G : Type} (ft : FreeType F S G) (r : text_renderer)
    (start : FT_Vector) (stroker_ : double) (gs : List (glyph_t G)) (k : Nat) (g : glyph_t G)
    (p : char_properties) (hk : gs[k]? = some g) (hp : g.properties = some p)
    (hbad : p.halo_radius * r.scale_factor_ ≤ 0 ∨ p.halo_radius * r.scale_factor_ > 1024) :
    (halo_pass ft r start stroker_ gs).calls = (halo_pass ft r start stroker_ (gs.take k)).calls
    ∧ (halo_pass ft r start stroker_ gs).fault = (halo_pass ft r start stroker_ (gs.take k)).fault
    ∧ ∀ e ∈ (halo_pass ft r start stroker_ gs).calls, e.1 < k := by
  have h := iterate_take_of_break (halo_body ft r start) g
    (halo_body_break ft r start g p hp hbad) gs k 0 ⟨0, none, stroker_⟩ hk
  refine ⟨h.1, h.2, ?_⟩
  intro e he
  unfold halo_pass at he
  rw [h.1] at he
  obtain ⟨_, g1, _, hg1, _, _⟩ := iterate_call_origin (halo_body ft r start) (fun _ => True)
    (fun _ _ _ _ => trivial) (gs.take k) 0 _ trivial e he
  have hlt : e.1 - 0 < (gs.take k).length := by
    by_contra hcon
    rw [List.getElem?_eq_none (not_lt.mp hcon)] at hg1
    exact Option.noConfusion hg1
  have := List.length_take_le k gs
  omega

theorem halo_draw_full_no_scatter {F S G : Type} (ft : FreeType F S G) (r : text_renderer)
    (start : FT_Vector) (g : glyph_t G) (l : render_locals) (pre : List (call G))
    (hfull : r.rasterizer_ = halo_rasterizer_e.HALO_RASTERIZER_FULL)
    (b : FT_Bitmap) (rgba : Nat) (x1 y1 : Int) (ρ : double) (opacity : ℚ)
    (comp_op : composite_mode_e)
    (hpre : call.render_halo b rgba x1 y1 ρ opacity comp_op ∉ pre) :
    call.render_halo b rgba x1 y1 ρ opacity comp_op ∉ (halo_draw ft r start g l pre).calls := by
  intro h
  unfold halo_draw at h
  dsimp only at h
  repeat' split at h
  all_goals simp_all

/-- A call that `halo_draw` never adds is absent from the whole halo pass. -/
theorem halo_pass_never {F S G : Type} (ft : FreeType F S G) (r : text_renderer)
    (start : FT_Vector) (stroker_ : double) (gs : List (glyph_t G)) (c : call G)
    (hc : ∀ ρ, c ≠ call.stroker_init ρ)
    (hd : ∀ g l pre, c ∉ pre → c ∉ (halo_draw ft r start g l pre).calls) :
    ∀ i, (i, c) ∉ (halo_pass ft r start stroker_ gs).calls := by
  intro i hi
  obtain ⟨_, g, l1, _, _, hmem⟩ := iterate_call_origin (halo_body ft r start)
    (fun _ => True) (fun _ _ _ _ => trivial) gs 0 ⟨0, none, stroker_⟩ trivial _ hi
  simp only at hmem
  cases hp : g.properties with
  | none =>
    have : halo_body ft r start g l1 = halo_draw ft r start g l1 [] := by simp [halo_body, hp]
    rw [this] at hmem
    exact hd g l1 [] (by simp) hmem
  | some p =>
    by_cases hbad : p.halo_radius * r.scale_factor_ ≤ 0 ∨ p.halo_radius * r.scale_factor_ > 1024
    · rw [(halo_body_break ft r start g p hp hbad l1).2] at hmem
      simp at hmem
    · rw [halo_body_in_range ft r start g p hp hbad l1] at hmem
      exact hd g _ _ (by simpa using hc _) hmem

theorem prepare_loop_properties {F S G : Type} (ft : FreeType F S G) (scale : ℚ) :
    ∀ (ps : List (glyph_position F)) (acc : List (glyph_t G)),
      (∀ g ∈ acc, g.properties ≠ none) →
      ∀ g ∈ (prepare_loop ft scale ps acc).glyphs_, g.properties ≠ none
  | [], acc, h => by simpa [prepare_loop] using h
  | itr :: rest, acc, h => by
    cases hf : itr.glyph.format with
    | none => simpa [prepare_loop, hf] using h
    | some f =>
      cases hl : ft.Load_Glyph itr.glyph.face (f.text_size * scale) (rotation_matrix itr.rot)
          (pen_of itr) itr.glyph.glyph_index with
      | none =>
        simpa [prepare_loop, hf, hl, prepared.logged] using
          prepare_loop_properties ft scale rest acc h
      | some slot =>
        cases hg : ft.Get_Glyph slot with
        | none =>
          simpa [prepare_loop, hf, hl, hg, prepared.logged] using
            prepare_loop_properties ft scale rest acc h
        | some image =>
          have hacc : ∀ g ∈ acc ++ [(⟨image, some f⟩ : glyph_t G)], g.properties ≠ none := by
            intro g hg
            rcases List.mem_append.mp hg with hg | hg
            · exact h g hg
            · simp only [List.mem_singleton] at hg
              simp [hg]
          simpa [prepare_loop, hf, hl, hg, prepared.logged] using
            prepare_loop_properties ft scale rest _ hacc

/-- Every glyph `prepare_glyphs` leaves in `glyphs_` carries a format. -/
theorem prepare_glyphs_properties {F S G : Type} (ft : FreeType F S G) (scale_factor_ : ℚ)
    (glyphs_ : List (glyph_t G)) (pos : glyph_positions F) :
    ∀ g ∈ (prepare_glyphs ft scale_factor_ glyphs_ pos).glyphs_, g.properties ≠ none :=
  prepare_loop_properties ft scale_factor_ pos.placements (clear glyphs_) (by simp [clear])

/-- C1: with the exact-stroke strategy (the halo pass never calls `render_halo`), if the glyph
at index k carries a format whose scaled radius `halo_radius * scale_factor` is <= 0 or > 1024,
the `composite_pixel` calls of the halo pass are exactly those of the halo pass over the first
k glyphs, and every one of them belongs to a glyph before k; a glyph whose scaled radius is
exactly 1024 does not break out: the body sets the stroker radius to 1024 and goes on to
draw. -/
theorem halo_bail_out_exact_stroke {F S G : Type} (ft : FreeType F S G) (r : text_renderer)
    (start : FT_Vector) (stroker_ : double) (gs : List (glyph_t G)) (k : Nat) (g : glyph_t G)
    (p : char_properties)
    (hfull : r.rasterizer_ = halo_rasterizer_e.HALO_RASTERIZER_FULL)
    (hk : gs[k]? = some g) (hp : g.properties = some p)
    (hbad : p.halo_radius * r.scale_factor_ ≤ 0 ∨ p.halo_radius * r.scale_factor_ > 1024) :
    pixels (halo_pass ft r start stroker_ gs).calls
        = pixels (halo_pass ft r start stroker_ (gs.take k)).calls
    ∧ (∀ e ∈ pixels (halo_pass ft r start stroker_ gs).calls, e.1 < k)
    ∧ render_halo_radii (halo_pass ft r start stroker_ gs).calls = []
    ∧ (∀ (g1 : glyph_t G) (p1 : char_properties) (l : render_locals),
        g1.properties = some p1 → p1.halo_radius * r.scale_factor_ = 1024 →
        halo_body ft r start g1 l
          = halo_draw ft r start g1 ⟨1024, some p1, 1024⟩ [call.stroker_init 1024]) := by
  obtain ⟨h1, _, h3⟩ := halo_pass_cut ft r start stroker_ gs k g p hk hp hbad
  refine ⟨by rw [h1], ?_, ?_, ?_⟩
  · intro e he
    exact h3 _ ((pixels_mem _ e).mp he)
  · rw [List.eq_nil_iff_forall_not_mem]
    intro ρ hρ
    obtain ⟨i, b, rgba, x1, y1, opacity, comp_op, hm⟩ := (render_halo_radii_mem _ ρ).mp hρ
    exact halo_pass_never ft r start stroker_ gs _ (fun _ h => call.noConfusion h)
      (fun g l pre hpre =>
        halo_draw_full_no_scatter ft r start g l pre hfull b rgba x1 y1 ρ opacity comp_op hpre)
      i hm
  · intro g1 p1 l hp1 h1024
    have := halo_body_in_range ft r start g1 p1 hp1
      (by rw [h1024]; exact (double.passes_test 1024).mpr
            (Or.inr ⟨1024, rfl, by norm_num, le_refl _⟩)) l
    rw [h1024] at this
    exact this

/-- Witness: three glyphs, the middle one with radius 2000; only glyph 0 gets halo pixels. -/
theorem halo_bail_out_exact_stroke_witness :
    (renderer_example halo_rasterizer_e.HALO_RASTERIZER_FULL).rasterizer_
      = halo_rasterizer_e.HALO_RASTERIZER_FULL ∧
    glyphs_example[1]? = some ⟨3, some format_bad⟩ ∧
    (format_bad.halo_radius * (renderer_example halo_rasterizer_e.HALO_RASTERIZER_FULL).scale_factor_ ≤ 0 ∨
      format_bad.halo_radius * (renderer_example halo_rasterizer_e.HALO_RASTERIZER_FULL).scale_factor_ > 1024) ∧
    pixels (halo_pass ft_example (renderer_example halo_rasterizer_e.HALO_RASTERIZER_FULL)
        ⟨64, 64⟩ 0 glyphs_example).calls
      = pixels (halo_pass ft_example (renderer_example halo_rasterizer_e.HALO_RASTERIZER_FULL)
        ⟨64, 64⟩ 0 (glyphs_example.take 1)).calls ∧
    (∀ e ∈ pixels (halo_pass ft_example (renderer_example halo_rasterizer_e.HALO_RASTERIZER_FULL)
        ⟨64, 64⟩ 0 glyphs_example).calls, e.1 < 1) ∧
    pixels (halo_pass ft_example (renderer_example halo_rasterizer_e.HALO_RASTERIZER_FULL)
        ⟨64, 64⟩ 0 [⟨2, some format_edge⟩]).calls = [(0, ⟨0, 2, 100, 2, 7, 1⟩)] :=
  have hbad : format_bad.halo_radius *
        (renderer_example halo_rasterizer_e.HALO_RASTERIZER_FULL).scale_factor_ ≤ 0 ∨
      format_bad.halo_radius *
        (renderer_example halo_rasterizer_e.HALO_RASTERIZER_FULL).scale_factor_ > 1024 := by
    right
    simp only [format_bad, renderer_example, double.finite_mul, double.lit_1024, gt_iff_lt,
      double.finite_lt]
    norm_num
  have h := halo_bail_out_exact_stroke ft_example
    (renderer_example halo_rasterizer_e.HALO_RASTERIZER_FULL) ⟨64, 64⟩ 0 glyphs_example 1
    ⟨3, some format_bad⟩ format_bad rfl rfl rfl hbad
  ⟨rfl, rfl, hbad, h.1, h.2.1, by
    simp only [halo_pass, iterate]
    rw [h.2.2.2 ⟨2, some format_edge⟩ format_edge _ rfl
      (by simp [format_edge, renderer_example, double.finite_mul, double.lit_1024])]
    simp [halo_draw, ft_example, renderer_example, composite_bitmap, for_each,
      List.range_succ, pixels, format_edge]⟩

theorem halo_draw_locals {F S G : Type} (ft : FreeType F S G) (r : text_renderer)
    (start : FT_Vector) (g : glyph_t G) (l : render_locals) (pre : List (call G)) :
    (halo_draw ft r start g l pre).locals = l := by
  unfold halo_draw
  dsimp only
  repeat' split
  all_goals rfl

theorem halo_draw_radius {F S G : Type} (ft : FreeType F S G) (r : text_renderer)
    (start : FT_Vector) (g : glyph_t G) (l : render_locals) (pre : List (call G))
    (b : FT_Bitmap) (rgba : Nat) (x1 y1 : Int) (ρ : double) (opacity : ℚ)
    (comp_op : composite_mode_e)
    (hpre : call.render_halo b rgba x1 y1 ρ opacity comp_op ∉ pre)
    (h : call.render_halo b rgba x1 y1 ρ opacity comp_op ∈ (halo_draw ft r start g l pre).calls) :
    ρ = l.halo_radius ∧ l.format ≠ none := by
  unfold halo_draw at h
  dsimp only at h
  repeat' split at h
  all_goals simp_all

/-- Every radius the halo pass hands to `render_halo` has passed the test of renderer.cpp 161:
it is not `<= 0` and not `> 1024` (so it lies in `(0, 1024]` or is NaN). -/
theorem halo_pass_radii {F S G : Type} (ft : FreeType F S G) (r : text_renderer)
    (start : FT_Vector) (stroker_ : double) (gs : List (glyph_t G)) :
    ∀ ρ ∈ render_halo_radii (halo_pass ft r start stroker_ gs).calls,
      ¬ (ρ ≤ 0 ∨ ρ > 1024) := by
  intro ρ hρ
  obtain ⟨i, b, rgba, x1, y1, opacity, comp_op, hm⟩ := (render_halo_radii_mem _ ρ).mp hρ
  have hInv : ∀ (g : glyph_t G) (l : render_locals),
      (l.format ≠ none → ¬ (l.halo_radius ≤ 0 ∨ l.halo_radius > 1024)) →
      (halo_body ft r start g l).ctl = ctl.next →
      ((halo_body ft r start g l).locals.format ≠ none →
        ¬ ((halo_body ft r start g l).locals.halo_radius ≤ 0 ∨
          (halo_body ft r start g l).locals.halo_radius > 1024)) := by
    intro g l hl hc
    cases hp : g.properties with
    | none =>
      have : halo_body ft r start g l = halo_draw ft r start g l [] := by simp [halo_body, hp]
      rw [this, halo_draw_locals]
      exact hl
    | some p =>
      by_cases hbad : p.halo_radius * r.scale_factor_ ≤ 0 ∨ p.halo_radius * r.scale_factor_ > 1024
      · rw [(halo_body_break ft r start g p hp hbad l).1] at hc
        exact ctl.noConfusion hc
      · rw [halo_body_in_range ft r start g p hp hbad l, halo_draw_locals]
        intro _
        exact hbad
  obtain ⟨_, g, l1, _, hl1, hmem⟩ := iterate_call_origin (halo_body ft r start)
    (fun l => l.format ≠ none → ¬ (l.halo_radius ≤ 0 ∨ l.halo_radius > 1024)) hInv gs 0
    ⟨0, none, stroker_⟩ (fun h => absurd rfl h) _ hm
  simp only at hmem
  cases hp : g.properties with
  | none =>
    have : halo_body ft r start g l1 = halo_draw ft r start g l1 [] := by simp [halo_body, hp]
    rw [this] at hmem
    obtain ⟨h1, h2⟩ := halo_draw_radius ft r start g l1 [] b rgba x1 y1 ρ opacity comp_op
      (by simp) hmem
    rw [h1]
    exact hl1 h2
  | some p =>
    by_cases hbad : p.halo_radius * r.scale_factor_ ≤ 0 ∨ p.halo_radius * r.scale_factor_ > 1024
    · rw [(halo_body_break ft r start g p hp hbad l1).2] at hmem
      simp at hmem
    · rw [halo_body_in_range ft r start g p hp hbad l1] at hmem
      obtain ⟨h1, _⟩ := halo_draw_radius ft r start g _ _ b rgba x1 y1 ρ opacity comp_op
        (by simp) hmem
      rw [h1]
      exact hbad

theorem render_passes_halo {F S G : Type} (ft : FreeType F S G) (r : text_renderer)
    (start : FT_Vector) (stroker_ : double) (gs : List (glyph_t G)) :
    (render_passes ft r start stroker_ gs).halo = (halo_pass ft r start stroker_ gs).calls := by
  unfold render_passes
  dsimp only
  split <;> rfl

theorem render_halo_some (b : FT_Bitmap) (rgba : Nat) (x1 y1 : Int) (r : double)
    (opacity : ℚ) (comp_op : composite_mode_e) (h : b.sized) :
    ∃ ws, render_halo_at b rgba x1 y1 r opacity comp_op = some ws := by
  cases r with
  | nan => exact ⟨_, scan_eq b h fun _ _ _ => ([] : List composite_pixel)⟩
  | finite q =>
    by_cases hr : q < 1
    · exact ⟨_, render_halo_closed_lt b rgba x1 y1 q opacity comp_op h hr⟩
    · exact ⟨_, render_halo_closed_ge b rgba x1 y1 q opacity comp_op h (not_lt.mp hr)⟩

theorem halo_draw_glyph {F S G : Type} (ft : FreeType F S G) (r : text_renderer)
    (start : FT_Vector) (g : glyph_t G) (l : render_locals) (pre : List (call G)) :
    (halo_draw ft r start g l pre).glyph = g := by
  unfold halo_draw
  dsimp only
  repeat' split
  all_goals rfl

theorem halo_body_glyph {F S G : Type} (ft : FreeType F S G) (r : text_renderer)
    (start : FT_Vector) (g : glyph_t G) (l : render_locals) :
    (halo_body ft r start g l).glyph = g := by
  unfold halo_body
  split
  · dsimp only
    split
    · rfl
    · exact halo_draw_glyph ..
  · exact halo_draw_glyph ..

theorem halo_draw_no_fault {F S G : Type} (ft : FreeType F S G) (r : text_renderer)
    (start : FT_Vector) (g : glyph_t G) (l : render_locals) (pre : List (call G))
    (hs : ft.sized_bitmaps) (hl : l.format ≠ none) :
    (halo_draw ft r start g l pre).ctl ≠ ctl.fault := by
  obtain ⟨f, hf⟩ := Option.ne_none_iff_exists'.mp hl
  unfold halo_draw
  dsimp only
  rw [hf]
  cases ft.Glyph_Copy g.image with
  | none => simp
  | some c =>
    dsimp only
    split
    · cases hb : ft.Glyph_To_Bitmap (ft.Glyph_Stroke l.stroker_ (ft.Glyph_Transform c start)) with
      | none => simp
      | some b =>
        dsimp only
        rw [composite_bitmap_closed _ _ _ _ _ _ (hs _ _ hb)]
        simp
    · cases hb : ft.Glyph_To_Bitmap (ft.Glyph_Transform c start) with
      | none => simp
      | some b =>
        obtain ⟨ws, hws⟩ := render_halo_some (ft.bitmap b).bitmap f.halo_fill (ft.bitmap b).left
          ((r.height : Int) - (ft.bitmap b).top) l.halo_radius f.text_opacity r.comp_op_
          (hs _ _ hb)
        dsimp only
        rw [hws]
        simp

theorem halo_body_no_fault {F S G : Type} (ft : FreeType F S G) (r : text_renderer)
    (start : FT_Vector) (g : glyph_t G) (l : render_locals)
    (hs : ft.sized_bitmaps) (hg : g.properties ≠ none) :
    (halo_body ft r start g l).ctl ≠ ctl.fault := by
  obtain ⟨p, hp⟩ := Option.ne_none_iff_exists'.mp hg
  by_cases hbad : p.halo_radius * r.scale_factor_ ≤ 0 ∨ p.halo_radius * r.scale_factor_ > 1024
  · rw [(halo_body_break ft r start g p hp hbad l).1]
    exact fun h => ctl.noConfusion h
  · rw [halo_body_in_range ft r start g p hp hbad l]
    exact halo_draw_no_fault ft r start g _ _ hs (by simp)

theorem composite_calls_pixels {G : Type} (i : Nat) (ws : List composite_pixel) :
    composite_calls (((ws.map call.pixel).map (Prod.mk i)) : List (Nat × call G)) = [] := by
  induction ws with
  | nil => rfl
  | cons w ws ih =>
    simp only [composite_calls, List.map_cons, List.filter_cons] at ih ⊢
    simp [ih]

theorem rasterized_pixels {G : Type} (i : Nat) (ws : List composite_pixel) :
    rasterized (((ws.map call.pixel).map (Prod.mk i)) : List (Nat × call G)) = [] := by
  induction ws with
  | nil => rfl
  | cons w ws ih =>
    simp only [rasterized, List.map_cons, List.filterMap_cons] at ih ⊢
    simp [ih]

theorem composite_calls_append {G : Type} (s t : List (Nat × call G)) :
    composite_calls (s ++ t) = composite_calls s ++ composite_calls t := by
  simp [composite_calls]

theorem rasterized_append {G : Type} (s t : List (Nat × call G)) :
    rasterized (s ++ t) = rasterized s ++ rasterized t := by
  simp [rasterized]

theorem fill_iterate_closed {F S G : Type} (ft : FreeType F S G) (r : text_renderer)
    (start : FT_Vector) (hs : ft.sized_bitmaps) :
    ∀ (gs : List (glyph_t G)) (i : Nat) (l : render_locals),
      (∀ g ∈ gs, g.properties ≠ none) →
      (iterate (fill_body ft r start) i gs l).fault = false ∧
      composite_calls (iterate (fill_body ft r start) i gs l).calls
        = (gs.enumFrom i).filterMap (expected_fill_call ft r start) ∧
      rasterized (iterate (fill_body ft r start) i gs l).calls
        = (gs.enumFrom i).map fun e => (e.1, ft.Glyph_Transform e.2.image start)
  | [], i, l, _ => by simp [iterate, composite_calls, rasterized]
  | g :: rest, i, l, h => by
    obtain ⟨p, hp⟩ := Option.ne_none_iff_exists'.mp (h g (List.mem_cons_self _ _))
    have hrest : ∀ g ∈ rest, g.properties ≠ none := fun g hg => h g (List.mem_cons_of_mem _ hg)
    cases hb : ft.Glyph_To_Bitmap (ft.Glyph_Transform g.image start) with
    | none =>
      have hbody : fill_body ft r start g l
          = ⟨{ g with image := ft.Glyph_Transform g.image start }, { l with format := some p },
              [call.To_Bitmap (ft.Glyph_Transform g.image start)], ctl.next⟩ := by
        simp [fill_body, hp, hb]
      obtain ⟨ih1, ih2, ih3⟩ := fill_iterate_closed ft r start hs rest (i + 1)
        { l with format := some p } hrest
      simp only [iterate, hbody, List.enumFrom_cons, List.filterMap_cons, List.map_cons,
        composite_calls_append, rasterized_append, ih1, ih2, ih3]
      simp [composite_calls, rasterized, expected_fill_call, hp, hb]
    | some b =>
      have hcb := composite_bitmap_closed (ft.bitmap b).bitmap p.fill (ft.bitmap b).left
        ((r.height : Int) - (ft.bitmap b).top) p.text_opacity r.comp_op_ (hs _ _ hb)
      have hbody : fill_body ft r start g l
          = ⟨{ g with image := b }, { l with format := some p },
              [call.To_Bitmap (ft.Glyph_Transform g.image start),
               call.composite_bitmap (ft.bitmap b).bitmap p.fill (ft.bitmap b).left
                ((r.height : Int) - (ft.bitmap b).top) p.text_opacity r.comp_op_] ++
              ((ft.bitmap b).bitmap.nonzero_cells.map fun c =>
                (⟨r.comp_op_, (ft.bitmap b).left + c.1, (r.height : Int) - (ft.bitmap b).top + c.2,
                  p.fill, (ft.bitmap b).bitmap.sample c.1 c.2, p.text_opacity⟩ :
                  composite_pixel)).map call.pixel,
              ctl.next⟩ := by
        simp [fill_body, hp, hb, hcb]
      obtain ⟨ih1, ih2, ih3⟩ := fill_iterate_closed ft r start hs rest (i + 1)
        { l with format := some p } hrest
      simp only [iterate, hbody, List.enumFrom_cons, List.filterMap_cons, List.map_cons,
        List.map_append, composite_calls_append, rasterized_append, composite_calls_pixels,
        rasterized_pixels, ih1, ih2, ih3]
      simp [composite_calls, rasterized, expected_fill_call, hp, hb]

theorem render_passes_fill {F S G : Type} (ft : FreeType F S G) (r : text_renderer)
    (start : FT_Vector) (stroker_ : double) (gs : List (glyph_t G)) (hs : ft.sized_bitmaps)
    (hprop : ∀ g ∈ gs, g.properties ≠ none) :
    (render_passes ft r start stroker_ gs).fault = false ∧
    (render_passes ft r start stroker_ gs).fill
      = (iterate (fill_body ft r start) 0 gs
          (halo_pass ft r start stroker_ gs).locals).calls := by
  have hnf : (halo_pass ft r start stroker_ gs).fault = false :=
    iterate_no_fault _ gs 0 _ fun g hg l => halo_body_no_fault ft r start g l hs (hprop g hg)
  have hgl : (halo_pass ft r start stroker_ gs).glyphs = gs :=
    iterate_glyphs_eq _ (halo_body_glyph ft r start) gs 0 _
  unfold render_passes
  dsimp only
  rw [hnf, hgl]
  simp only [Bool.false_eq_true, if_false]
  exact ⟨(fill_iterate_closed ft r start hs gs 0 _ hprop).1, trivial⟩

theorem expected_fill_call_radii {F S G : Type} (ft : FreeType F S G) (r r2 : text_renderer)
    (start : FT_Vector) (ρ : char_properties → double) (hc : r2.comp_op_ = r.comp_op_)
    (hh : r2.height = r.height) :
    ∀ (gs : List (glyph_t G)) (i : Nat),
      ((with_halo_radii ρ gs).enumFrom i).filterMap (expected_fill_call ft r2 start)
        = (gs.enumFrom i).filterMap (expected_fill_call ft r start)
  | [], _ => rfl
  | g :: rest, i => by
    have ih := expected_fill_call_radii ft r r2 start ρ hc hh rest (i + 1)
    simp only [with_halo_radii, List.map_cons, List.enumFrom_cons, List.filterMap_cons] at ih ⊢
    rw [ih]
    cases hp : g.properties <;>
      cases hb : ft.Glyph_To_Bitmap (ft.Glyph_Transform g.image start) <;>
      simp [expected_fill_call, hp, hb, hc, hh]

theorem render_eq_passes {F S G : Type} (ft : FreeType F S G) (r : text_renderer)
    (stroker_ : double) (glyphs_ : List (glyph_t G)) (pos : glyph_positions F)
    (h : (prepare_glyphs ft r.scale_factor_ glyphs_ pos).fault = false) :
    render ft r stroker_ glyphs_ pos
      = render_passes ft r (start_of r.height pos.base_point) stroker_
          (prepare_glyphs ft r.scale_factor_ glyphs_ pos).glyphs_ := by
  have hp : prepare_glyphs ft r.scale_factor_ (clear glyphs_) pos
      = prepare_glyphs ft r.scale_factor_ glyphs_ pos := rfl
  unfold render
  dsimp only
  rw [hp, h]
  simp

/-- C2: for a prepared list (every glyph carries its format) and sized bitmaps, `render`
reaches and completes the fill pass, visits every prepared glyph, and its `composite_bitmap`
invocations are, in order, one for each glyph whose rasterization succeeds, with that glyph's
fill colour and opacity at `(left, height - top)`; they do not depend on the halo pass: the
same invocations result for any halo radii (in range or not), strategy, scale factor and
stroker state. The same closed form holds for `render` on every placement list that
`prepare_glyphs` gets through. -/
theorem fill_pass_unconditional {F S G : Type} (ft : FreeType F S G) (r : text_renderer)
    (start : FT_Vector) (stroker_ : double) (gs : List (glyph_t G)) (hs : ft.sized_bitmaps)
    (hprop : ∀ g ∈ gs, g.properties ≠ none) :
    (render_passes ft r start stroker_ gs).fault = false
    ∧ (rasterized (render_passes ft r start stroker_ gs).fill).length = gs.length
    ∧ composite_calls (render_passes ft r start stroker_ gs).fill
        = gs.enum.filterMap (expected_fill_call ft r start)
    ∧ (∀ (ρ : char_properties → double) (rasterizer : halo_rasterizer_e) (scale : ℚ)
        (stroker2 : double),
        composite_calls (render_passes ft ⟨rasterizer, r.comp_op_, scale, r.height⟩ start
            stroker2 (with_halo_radii ρ gs)).fill
          = composite_calls (render_passes ft r start stroker_ gs).fill)
    ∧ (∀ (glyphs_ : List (glyph_t G)) (pos : glyph_positions F),
        (prepare_glyphs ft r.scale_factor_ glyphs_ pos).fault = false →
        composite_calls (render ft r stroker_ glyphs_ pos).fill
          = (prepare_glyphs ft r.scale_factor_ glyphs_ pos).glyphs_.enum.filterMap
              (expected_fill_call ft r (start_of r.height pos.base_point))) := by
  obtain ⟨h1, h2⟩ := render_passes_fill ft r start stroker_ gs hs hprop
  obtain ⟨_, h4, h5⟩ := fill_iterate_closed ft r start hs gs 0
    (halo_pass ft r start stroker_ gs).locals hprop
  refine ⟨h1, ?_, ?_, ?_, ?_⟩
  · rw [h2, h5]
    simp
  · rw [h2, h4]
    rfl
  on_goal 2 =>
    intro glyphs_ pos hf
    have hq := prepare_glyphs_properties ft r.scale_factor_ glyphs_ pos
    rw [render_eq_passes ft r stroker_ glyphs_ pos hf,
      (render_passes_fill ft r _ stroker_ _ hs hq).2,
      (fill_iterate_closed ft r _ hs _ 0 _ hq).2.1]
    rfl
  · intro ρ rasterizer scale stroker2
    have hprop2 : ∀ g ∈ with_halo_radii ρ gs, g.properties ≠ none := by
      intro g hg
      simp only [with_halo_radii, List.mem_map] at hg
      obtain ⟨g0, hg0, rfl⟩ := hg
      obtain ⟨p, hp⟩ := Option.ne_none_iff_exists'.mp (hprop g0 hg0)
      simp [hp]
    obtain ⟨_, k2⟩ := render_passes_fill ft ⟨rasterizer, r.comp_op_, scale, r.height⟩ start
      stroker2 (with_halo_radii ρ gs) hs hprop2
    obtain ⟨_, k4, _⟩ := fill_iterate_closed ft ⟨rasterizer, r.comp_op_, scale, r.height⟩ start
      hs (with_halo_radii ρ gs) 0
      (halo_pass ft ⟨rasterizer, r.comp_op_, scale, r.height⟩ start stroker2
        (with_halo_radii ρ gs)).locals hprop2
    rw [k2, k4, h2, h4]
    exact expected_fill_call_radii ft r _ start ρ rfl rfl gs 0

theorem ft_example_sized : ft_example.sized_bitmaps := by
  intro g b _
  simp [ft_example, FT_Bitmap.sized]

theorem glyphs_example_formats : ∀ g ∈ glyphs_example, g.properties ≠ none := by
  simp [glyphs_example]

/-- Witness: the three example glyphs, whose halo pass breaks out at glyph 1. -/
theorem fill_pass_unconditional_witness :
    ft_example.sized_bitmaps ∧ (∀ g ∈ glyphs_example, g.properties ≠ none) ∧
    (render_passes ft_example (renderer_example halo_rasterizer_e.HALO_RASTERIZER_FULL)
      ⟨64, 64⟩ 0 glyphs_example).fault = false ∧
    (rasterized (render_passes ft_example
      (renderer_example halo_rasterizer_e.HALO_RASTERIZER_FULL) ⟨64, 64⟩ 0
      glyphs_example).fill).length = glyphs_example.length :=
  have h := fill_pass_unconditional ft_example
    (renderer_example halo_rasterizer_e.HALO_RASTERIZER_FULL) ⟨64, 64⟩ 0 glyphs_example
    ft_example_sized glyphs_example_formats
  ⟨ft_example_sized, glyphs_example_formats, h.1, h.2.1⟩

theorem rasterized_mem {G : Type} (t : List (Nat × call G)) (e : Nat × G) :
    e ∈ rasterized t ↔ (e.1, call.To_Bitmap e.2) ∈ t := by
  simp only [rasterized, List.mem_filterMap]
  constructor
  · rintro ⟨⟨i, c⟩, hm, hc⟩
    cases c <;> simp at hc
    obtain ⟨rfl, rfl⟩ := hc
    exact hm
  · intro h
    exact ⟨_, h, rfl⟩

theorem halo_draw_To_Bitmap {F S G : Type} (ft : FreeType F S G) (r : text_renderer)
    (start : FT_Vector) (g : glyph_t G) (l : render_locals) (pre : List (call G)) (x : G)
    (hpre : call.To_Bitmap x ∉ pre)
    (h : call.To_Bitmap x ∈ (halo_draw ft r start g l pre).calls) :
    ∃ c, ft.Glyph_Copy g.image = some c ∧
      (x = ft.Glyph_Transform c start ∨
        x = ft.Glyph_Stroke l.stroker_ (ft.Glyph_Transform c start)) := by
  unfold halo_draw at h
  dsimp only at h
  repeat' split at h
  all_goals simp_all

/-- C8: for either halo strategy and any radii, the halo pass leaves the stored prepared
glyphs unchanged, and whatever it rasterizes is a translated (and possibly stroked) copy of a
stored outline; for a prepared list and sized bitmaps the fill pass of `render` then
rasterizes, for each glyph in order, the stored outline translated once by `start`, which in
`render` is the base pen position. -/
theorem halo_fill_no_interference {F S G : Type} (ft : FreeType F S G) (r : text_renderer)
    (start : FT_Vector) (stroker_ : double) (gs : List (glyph_t G)) (hs : ft.sized_bitmaps)
    (hprop : ∀ g ∈ gs, g.properties ≠ none) :
    (halo_pass ft r start stroker_ gs).glyphs = gs
    ∧ (∀ e ∈ rasterized (halo_pass ft r start stroker_ gs).calls,
        ∃ g c ρ, gs[e.1]? = some g ∧ ft.Glyph_Copy g.image = some c ∧
          (e.2 = ft.Glyph_Transform c start ∨
            e.2 = ft.Glyph_Stroke ρ (ft.Glyph_Transform c start)))
    ∧ rasterized (render_passes ft r start stroker_ gs).fill
        = gs.enum.map (fun e => (e.1, ft.Glyph_Transform e.2.image start))
    ∧ (∀ (glyphs_ : List (glyph_t G)) (pos : glyph_positions F),
        (prepare_glyphs ft r.scale_factor_ glyphs_ pos).fault = false →
        rasterized (render ft r stroker_ glyphs_ pos).fill
          = (prepare_glyphs ft r.scale_factor_ glyphs_ pos).glyphs_.enum.map fun e =>
              (e.1, ft.Glyph_Transform e.2.image (start_of r.height pos.base_point))) := by
  refine ⟨iterate_glyphs_eq _ (halo_body_glyph ft r start) gs 0 _, ?_, ?_, ?_⟩
  on_goal 3 =>
    intro glyphs_ pos hf
    have hq := prepare_glyphs_properties ft r.scale_factor_ glyphs_ pos
    rw [render_eq_passes ft r stroker_ glyphs_ pos hf,
      (render_passes_fill ft r _ stroker_ _ hs hq).2,
      (fill_iterate_closed ft r _ hs _ 0 _ hq).2.2]
    rfl
  · intro e he
    obtain ⟨_, g, l1, hg, _, hmem⟩ := iterate_call_origin (halo_body ft r start)
      (fun _ => True) (fun _ _ _ _ => trivial) gs 0 ⟨0, none, stroker_⟩ trivial _
      ((rasterized_mem _ e).mp he)
    simp only [Nat.sub_zero] at hg hmem
    cases hp : g.properties with
    | none =>
      have : halo_body ft r start g l1 = halo_draw ft r start g l1 [] := by simp [halo_body, hp]
      rw [this] at hmem
      obtain ⟨c, hc, hx⟩ := halo_draw_To_Bitmap ft r start g l1 [] e.2 (by simp) hmem
      exact ⟨g, c, l1.stroker_, hg, hc, hx⟩
    | some p =>
      by_cases hbad :
          p.halo_radius * r.scale_factor_ ≤ 0 ∨ p.halo_radius * r.scale_factor_ > 1024
      · rw [(halo_body_break ft r start g p hp hbad l1).2] at hmem
        simp at hmem
      · rw [halo_body_in_range ft r start g p hp hbad l1] at hmem
        obtain ⟨c, hc, hx⟩ := halo_draw_To_Bitmap ft r start g _ _ e.2 (by simp) hmem
        exact ⟨g, c, _, hg, hc, hx⟩
  · rw [(render_passes_fill ft r start stroker_ gs hs hprop).2,
      (fill_iterate_closed ft r start hs gs 0 _ hprop).2.2]
    rfl

/-- Witness: the three example glyphs with the fast strategy. -/
theorem halo_fill_no_interference_witness :
    ft_example.sized_bitmaps ∧ (∀ g ∈ glyphs_example, g.properties ≠ none) ∧
    (halo_pass ft_example (renderer_example halo_rasterizer_e.HALO_RASTERIZER_FAST)
      ⟨64, 64⟩ 0 glyphs_example).glyphs = glyphs_example ∧
    rasterized (render_passes ft_example
        (renderer_example halo_rasterizer_e.HALO_RASTERIZER_FAST) ⟨64, 64⟩ 0 glyphs_example).fill
      = glyphs_example.enum.map fun e => (e.1, ft_example.Glyph_Transform e.2.image ⟨64, 64⟩) :=
  have h := halo_fill_no_interference ft_example
    (renderer_example halo_rasterizer_e.HALO_RASTERIZER_FAST) ⟨64, 64⟩ 0 glyphs_example
    ft_example_sized glyphs_example_formats
  ⟨ft_example_sized, glyphs_example_formats, h.1, h.2.2.1⟩

/-! ## `prepare_glyphs` -/

theorem prepare_loop_closed {F S G : Type} (ft : FreeType F S G) (scale : ℚ) :
    ∀ (ps : List (glyph_position F)) (acc : List (glyph_t G)),
      (∀ itr ∈ ps, itr.glyph.format ≠ none) →
      (prepare_loop ft scale ps acc).fault = false ∧
      (prepare_loop ft scale ps acc).glyphs_
        = acc ++ ps.filterMap (fun itr =>
            (outline_of ft scale itr).map fun image => ⟨image, itr.glyph.format⟩) ∧
      (prepare_loop ft scale ps acc).face_sizes.map (fun e => (e.1, some e.2))
        = ps.map fun itr =>
            (itr.glyph.face, itr.glyph.format.map fun format => format.text_size * scale)
  | [], acc, _ => by simp [prepare_loop]
  | itr :: rest, acc, h => by
    obtain ⟨f, hf⟩ := Option.ne_none_iff_exists'.mp (h itr (List.mem_cons_self _ _))
    have hrest : ∀ itr ∈ rest, itr.glyph.format ≠ none :=
      fun j hj => h j (List.mem_cons_of_mem _ hj)
    cases hl : ft.Load_Glyph itr.glyph.face (f.text_size * scale) (rotation_matrix itr.rot)
        (pen_of itr) itr.glyph.glyph_index with
    | none =>
      obtain ⟨ih1, ih2, ih3⟩ := prepare_loop_closed ft scale rest acc hrest
      simp [prepare_loop, hf, hl, prepared.logged, ih1, ih2, ih3, outline_of]
    | some slot =>
      cases hg : ft.Get_Glyph slot with
      | none =>
        obtain ⟨ih1, ih2, ih3⟩ := prepare_loop_closed ft scale rest acc hrest
        simp [prepare_loop, hf, hl, hg, prepared.logged, ih1, ih2, ih3, outline_of]
      | some image =>
        obtain ⟨ih1, ih2, ih3⟩ := prepare_loop_closed ft scale rest
          (acc ++ [⟨image, itr.glyph.format⟩]) hrest
        rw [hf] at ih1 ih2 ih3
        simp only [outline_of] at ih2
        simp [prepare_loop, hf, hl, hg, prepared.logged, ih1, ih2, ih3, outline_of]

/-- On a placement list whose placements all carry a format, `prepare_glyphs` completes
without fault, discards the previous contents of `glyphs_`, and leaves exactly one prepared
glyph, paired with the placement's format, for each placement whose outline load and
extraction both succeed, in placement order; a placement whose load or extraction fails
leaves none; the result is never longer than the placement list. -/
theorem prepare_glyphs_with_formats {F S G : Type} (ft : FreeType F S G) (scale_factor_ : ℚ)
    (glyphs_ : List (glyph_t G)) (pos : glyph_positions F)
    (hfmt : ∀ itr ∈ pos.placements, itr.glyph.format ≠ none) :
    (prepare_glyphs ft scale_factor_ glyphs_ pos).fault = false
    ∧ (prepare_glyphs ft scale_factor_ glyphs_ pos).glyphs_
        = pos.placements.filterMap (fun itr =>
            (outline_of ft scale_factor_ itr).map fun image => ⟨image, itr.glyph.format⟩)
    ∧ (prepare_glyphs ft scale_factor_ glyphs_ pos).glyphs_.length ≤ pos.placements.length := by
  obtain ⟨h1, h2, _⟩ := prepare_loop_closed ft scale_factor_ pos.placements (clear glyphs_) hfmt
  have h2a : (prepare_glyphs ft scale_factor_ glyphs_ pos).glyphs_
      = pos.placements.filterMap (fun itr =>
          (outline_of ft scale_factor_ itr).map fun image => ⟨image, itr.glyph.format⟩) := by
    simpa [prepare_glyphs, clear] using h2
  refine ⟨h1, h2a, ?_⟩
  rw [h2a]
  exact List.length_filterMap_le _ _

/-- C6: the claim fails on the code where a placement has no format. On three placements that
all load and extract, the second without a format of its own, `prepare_glyphs` dereferences
the null `format` (renderer.cpp 79) at the second placement: the run ends in a fault, the
stale `glyphs_` are gone, and the third placement, whose outline load and extraction succeed,
has no prepared glyph. -/
theorem prepare_glyphs_fault_drops_later :
    (prepare_glyphs ft_example 1 glyphs_example positions_gap).fault = true
    ∧ (prepare_glyphs ft_example 1 glyphs_example positions_gap).glyphs_
        = [⟨2, some format_ok⟩]
    ∧ positions_gap.placements[2]? = some (placement_example 4 (some format_ok))
    ∧ outline_of ft_example 1 (placement_example 4 (some format_ok)) = some 4 := by
  refine ⟨?_, ?_, rfl, ?_⟩
  · simp [prepare_glyphs, prepare_loop, positions_gap, placement_example, ft_example,
      prepared.logged]
  · simp [prepare_glyphs, prepare_loop, positions_gap, placement_example, ft_example,
      prepared.logged, clear]
  · simp [outline_of, placement_example, ft_example]

/-- C7: the claim fails on the code where a placement has no format. With a first placement
carrying a format of text size 12 and a second one without a format, the inherited sizes are
12 and 12, but `prepare_glyphs` makes one `set_character_sizes` call (face 5, size 12) and
then dereferences the null `format` (renderer.cpp 79): the run ends in a fault with one
prepared glyph. The fill loop of `render`, given a prepared glyph without a format, does
inherit: it composites glyph 1 with the fill colour and opacity of glyph 0's format. -/
theorem format_inheritance_fault :
    inherited_sizes 1 positions_absent.placements = [some 12, some 12]
    ∧ (prepare_glyphs ft_example 1 [] positions_absent).face_sizes = [(5, 12)]
    ∧ (prepare_glyphs ft_example 1 [] positions_absent).fault = true
    ∧ (prepare_glyphs ft_example 1 [] positions_absent).glyphs_ = [⟨2, some format_ok⟩]
    ∧ composite_calls (render_passes ft_example
          (renderer_example halo_rasterizer_e.HALO_RASTERIZER_FULL) ⟨64, 64⟩ 0
          [⟨2, some format_ok⟩, ⟨3, none⟩]).fill
        = [(0, call.composite_bitmap ⟨1, 1, [2]⟩ format_ok.fill 2 100 format_ok.text_opacity 0),
           (1, call.composite_bitmap ⟨1, 1, [3]⟩ format_ok.fill 3 100 format_ok.text_opacity 0)] := by
  refine ⟨?_, ?_, ?_, ?_, ?_⟩
  · simp [inherited_sizes, active_formats, positions_absent, placement_example, format_ok]
  · simp [prepare_glyphs, prepare_loop, positions_absent, placement_example, ft_example,
      prepared.logged, format_ok]
  · simp [prepare_glyphs, prepare_loop, positions_absent, placement_example, ft_example,
      prepared.logged]
  · simp [prepare_glyphs, prepare_loop, positions_absent, placement_example, ft_example,
      prepared.logged, clear]
  · have h1 : ¬ (double.finite 3 ≤ (0 : double)) := by
      rw [double.zero_eq, double.finite_le]; norm_num
    have h2 : ¬ ((1024 : double) < double.finite 3) := by
      rw [double.lit_1024, double.finite_lt]; norm_num
    simp [render_passes, halo_pass, iterate, halo_body, halo_draw, fill_body,
      composite_bitmap, for_each, List.range_succ, composite_calls, ft_example,
      renderer_example, format_ok, double.finite_mul, h1, h2]

/-- C10: the invariant fails on the code for a NaN radius. With the fast-approximate strategy
and one placement whose format has a NaN halo radius, both comparisons of the radius test
(renderer.cpp 161) are false, the halo loop does not break, and `render` calls `render_halo`
with the NaN radius, which is not in `(0, 1024]`. -/
theorem halo_check_misses_nan :
    ¬ (format_nan.halo_radius *
          (renderer_example halo_rasterizer_e.HALO_RASTERIZER_FAST).scale_factor_ ≤ 0 ∨
        format_nan.halo_radius *
          (renderer_example halo_rasterizer_e.HALO_RASTERIZER_FAST).scale_factor_ > 1024)
    ∧ render_halo_radii
        (render ft_example (renderer_example halo_rasterizer_e.HALO_RASTERIZER_FAST) 0 []
          positions_nan).halo = [double.nan]
    ∧ ¬ ((0 : double) < double.nan ∧ double.nan ≤ (1024 : double)) := by
  refine ⟨?_, ?_, fun h => double.not_lt_nan _ h.1⟩
  · simp [format_nan, renderer_example, double.nan_mul, double.not_nan_le, double.not_lt_nan]
  · have hf : (prepare_glyphs ft_example
        (renderer_example halo_rasterizer_e.HALO_RASTERIZER_FAST).scale_factor_ []
        positions_nan).fault = false := by
      simp [prepare_glyphs, prepare_loop, positions_nan, placement_example, ft_example,
        prepared.logged, format_nan]
    have hg : (prepare_glyphs ft_example
        (renderer_example halo_rasterizer_e.HALO_RASTERIZER_FAST).scale_factor_ []
        positions_nan).glyphs_ = [⟨2, some format_nan⟩] := by
      simp [prepare_glyphs, prepare_loop, positions_nan, placement_example, ft_example,
        prepared.logged, format_nan, clear]
    rw [render_eq_passes _ _ _ _ _ hf, render_passes_halo, hg]
    simp only [halo_pass, iterate]
    rw [halo_body_in_range _ _ _ _ format_nan rfl
      (by simp [format_nan, renderer_example, double.nan_mul, double.not_nan_le,
        double.not_lt_nan])]
    simp [halo_draw, ft_example, renderer_example, render_halo_at, render_halo_nan, for_each,
      List.range_succ, render_halo_radii, format_nan, double.nan_mul]

end mapnik
